import Mathlib

/-!
# s3-transfer: the bucket-replication driver of `main.go`

A shallow embedding of `Syncronizer.listObjects`, `Syncronizer.migrate` and
`Syncronizer.Sync`, together with theorems about the service-call trace, the
progress output and the returned error.

Modelling conventions

* A Go pointer (`*string`, `*bool`) is an `Option`; dereferencing `none` is a
  nil-pointer panic.
* A Go `error` is represented by its message (`err.Error()`): the code only ever
  formats errors with `%v`.
* The storage client is an arbitrary state-passing service: each call receives
  the service state and returns a response and the next state.  A service that
  is a function of the request alone is the special case with state `Unit`.
* The `for { ... }` loop of `listObjects` may run forever, so it is embedded with
  an iteration budget; `Outcome.timeout` says the budget ran out with the loop
  still running.
* `objectNum` is a Go `int`.  It never exceeds the number of keys held in memory
  (`objectsList` together with the current page), so it cannot wrap; it is a `Nat`.
-/

set_option autoImplicit false

namespace S3Transfer

/-! ## Data model -/

/-- Go `type Locations struct`: one configured bucket pair. -/
structure Locations where
  Source : String
  Dest : String
deriving DecidableEq, Repr

/-- The field of `types.Object` that the code reads. -/
structure Object where
  Key : Option String
deriving DecidableEq, Repr

/-- The fields of `s3.ListObjectsV2Input` that the code sets. -/
structure ListObjectsV2Input where
  Bucket : Option String
  ContinuationToken : Option String
deriving DecidableEq, Repr

/-- The fields of `s3.ListObjectsV2Output` that the code reads. -/
structure ListObjectsV2Output where
  Contents : List Object
  IsTruncated : Option Bool
  NextContinuationToken : Option String
deriving DecidableEq, Repr

/-- The fields of `s3.CopyObjectInput` that the code sets. -/
structure CopyObjectInput where
  Bucket : Option String
  CopySource : Option String
  Key : Option String
deriving DecidableEq, Repr

/-- The two operations of `*s3.Client` that the code calls, as a state-passing
service over an arbitrary service state. -/
structure Client (σ : Type) where
  ListObjectsV2 : σ → ListObjectsV2Input → Except String ListObjectsV2Output × σ
  CopyObject : σ → CopyObjectInput → Except String Unit × σ

/-- One service call of a run: the request sent and the response received. -/
inductive Call where
  | list (input : ListObjectsV2Input) (resp : Except String ListObjectsV2Output)
  | copy (input : CopyObjectInput) (resp : Except String Unit)

/-- How a Go function ended. -/
inductive Outcome (α : Type) where
  | ok (a : α)
  | error (msg : String)
  | panic
  | timeout
deriving DecidableEq, Repr

/-- What a run of one function did: the service state it left, the service
calls it made (oldest first), what it wrote to standard output (one entry per
`Printf`), and how it ended. -/
structure Run (σ α : Type) where
  state : σ
  trace : List Call
  stdout : List String
  outcome : Outcome α

/-- The Go pointer field `input.ContinuationToken`: nil, or the address of the
local variable `continuationToken`. -/
inductive TokenPtr where
  | nil
  | addrOfLocal
deriving DecidableEq, Repr

/-- The token a request carries when it is sent: the pointer field read through. -/
def TokenPtr.deref : TokenPtr → String → Option String
  | .nil, _ => none
  | .addrOfLocal, continuationToken => some continuationToken

/-! ## `listObjects` -/

/-- Lines 96-99: `for _, obj := range resp.Contents { Printf(...); objectNum++ }`.
Returns the lines printed and the final counter, or `none` for the counter when
`*obj.Key` dereferenced nil. -/
def printLoop : List Object → Nat → List String × Option Nat
  | [], objectNum => ([], some objectNum)
  | obj :: rest, objectNum =>
    match obj.Key with
    | none => ([], none)
    | some key =>
      let r := printLoop rest (objectNum + 1)
      (("Object " ++ toString objectNum ++ ": " ++ key ++ "\n") :: r.1, r.2)

/-- Lines 101-103: `objectsList = append(objectsList, Sprintf("%s/%s", bucketName, *obj.Key))`
for each object; `none` when `*obj.Key` dereferenced nil. -/
def appendLoop (bucketName : String) : List Object → List String → Option (List String)
  | [], objectsList => some objectsList
  | obj :: rest, objectsList =>
    match obj.Key with
    | none => none
    | some key => appendLoop bucketName rest (objectsList ++ [bucketName ++ "/" ++ key])

/-- Put one service call and the lines printed after it in front of a run. -/
def Run.after {σ α : Type} (c : Call) (lines : List String) (r : Run σ α) : Run σ α :=
  { state := r.state, trace := c :: r.trace, stdout := lines ++ r.stdout, outcome := r.outcome }

/-- Lines 90-110: the `for { ... }` loop, with an iteration budget.  `ptr` is the
value of `input.ContinuationToken`, which the loop never assigns. -/
def listObjectsLoop {σ : Type} (S3 : Client σ) (bucketName : String) (ptr : TokenPtr) :
    Nat → σ → String → List String → Nat → Run σ (List String)
  | 0, s, _, _, _ => { state := s, trace := [], stdout := [], outcome := .timeout }
  | fuel + 1, s, continuationToken, objectsList, objectNum =>
    let input : ListObjectsV2Input :=
      { Bucket := some bucketName, ContinuationToken := ptr.deref continuationToken }
    let r := S3.ListObjectsV2 s input
    match r.1 with
    | .error err =>
      { state := r.2, trace := [.list input r.1], stdout := [],
        outcome := .error ("unable to list objects, " ++ err) }
    | .ok resp =>
      match printLoop resp.Contents objectNum with
      | (lines, none) =>
        { state := r.2, trace := [.list input r.1], stdout := lines, outcome := .panic }
      | (lines, some objectNum1) =>
        match appendLoop bucketName resp.Contents objectsList with
        | none =>
          { state := r.2, trace := [.list input r.1], stdout := lines, outcome := .panic }
        | some objectsList1 =>
          match resp.IsTruncated with
          | none =>
            { state := r.2, trace := [.list input r.1], stdout := lines, outcome := .panic }
          | some false =>
            { state := r.2, trace := [.list input r.1], stdout := lines,
              outcome := .ok objectsList1 }
          | some true =>
            match resp.NextContinuationToken with
            | none =>
              { state := r.2, trace := [.list input r.1], stdout := lines, outcome := .panic }
            | some next =>
              (listObjectsLoop S3 bucketName ptr fuel r.2 next objectsList1 objectNum1).after
                (.list input r.1) lines

/-- Go `func (s *Syncronizer) listObjects(bucketName string) ([]string, error)`.
`fuel` bounds the number of loop iterations. -/
def listObjects {σ : Type} (S3 : Client σ) (fuel : Nat) (bucketName : String) (s : σ) :
    Run σ (List String) :=
  let continuationToken := ""
  let objectsList : List String := []
  let objectNum := 0
  let ptr : TokenPtr := if continuationToken ≠ "" then .addrOfLocal else .nil
  listObjectsLoop S3 bucketName ptr fuel s continuationToken objectsList objectNum

/-! ## `migrate` -/

/-- Go `func (s *Syncronizer) migrate(objectsList []string, destinationBucket string) error`. -/
def migrate {σ : Type} (S3 : Client σ) : List String → String → σ → Run σ Unit
  | [], _, s => { state := s, trace := [], stdout := [], outcome := .ok () }
  | obj :: rest, destinationBucket, s =>
    let input : CopyObjectInput :=
      { Bucket := some destinationBucket, CopySource := some obj, Key := some obj }
    let r := S3.CopyObject s input
    match r.1 with
    | .error err =>
      { state := r.2, trace := [.copy input r.1], stdout := [],
        outcome := .error ("unable to copy object, " ++ err) }
    | .ok _ => (migrate S3 rest destinationBucket r.2).after (.copy input r.1) []

/-! ## `Sync` -/

/-- One service call of a `Sync` run, labelled with the index of the loop
iteration (the position of the bucket pair in `s.locations`) that made it. -/
structure Event where
  pair : Nat
  call : Call

/-- What a run of `Sync` did. -/
structure SyncRun (σ : Type) where
  state : σ
  trace : List Event
  stdout : List String
  outcome : Outcome Unit

/-- Label the calls of one loop iteration. -/
def tag (i : Nat) (calls : List Call) : List Event :=
  calls.map (fun c => { pair := i, call := c })

/-- The `for _, location := range s.locations` loop of `Sync`, from iteration `i` on. -/
def SyncFrom {σ : Type} (S3 : Client σ) (fuel : Nat) : Nat → List Locations → σ → SyncRun σ
  | _, [], s => { state := s, trace := [], stdout := [], outcome := .ok () }
  | i, location :: rest, s =>
    let l := listObjects S3 fuel location.Source s
    match l.outcome with
    | .error err =>
      { state := l.state, trace := tag i l.trace, stdout := l.stdout,
        outcome := .error ("unable to list objects, " ++ err) }
    | .panic => { state := l.state, trace := tag i l.trace, stdout := l.stdout, outcome := .panic }
    | .timeout =>
      { state := l.state, trace := tag i l.trace, stdout := l.stdout, outcome := .timeout }
    | .ok objectsList =>
      let m := migrate S3 objectsList location.Dest l.state
      match m.outcome with
      | .error err =>
        { state := m.state, trace := tag i l.trace ++ tag i m.trace,
          stdout := l.stdout ++ m.stdout,
          outcome := .error ("unable to migrate objects, " ++ err) }
      | .panic =>
        { state := m.state, trace := tag i l.trace ++ tag i m.trace,
          stdout := l.stdout ++ m.stdout, outcome := .panic }
      | .timeout =>
        { state := m.state, trace := tag i l.trace ++ tag i m.trace,
          stdout := l.stdout ++ m.stdout, outcome := .timeout }
      | .ok _ =>
        let t := SyncFrom S3 fuel (i + 1) rest m.state
        { state := t.state, trace := tag i l.trace ++ tag i m.trace ++ t.trace,
          stdout := l.stdout ++ m.stdout ++ t.stdout, outcome := t.outcome }

/-- Go `func (s *Syncronizer) Sync() error` over `s.locations`. -/
def Sync {σ : Type} (S3 : Client σ) (fuel : Nat) (locations : List Locations) (s : σ) :
    SyncRun σ :=
  SyncFrom S3 fuel 0 locations s

/-! ## Example services -/

/-- Scenario S1 as a function of the request: the page for the absent token is
`[a, b]`, truncated, next token `T`; the page for any token is `[c]`, final. -/
def s1Client : Client Unit where
  ListObjectsV2 := fun _ input =>
    match input.ContinuationToken with
    | none =>
      (.ok { Contents := [⟨some "a"⟩, ⟨some "b"⟩], IsTruncated := some true,
             NextContinuationToken := some "T" }, ())
    | some _ =>
      (.ok { Contents := [⟨some "c"⟩], IsTruncated := some false,
             NextContinuationToken := none }, ())
  CopyObject := fun _ _ => (.ok (), ())

/-! ## Observations on traces, used to state the properties -/

/-- The keys of a page, in page order (entries with a nil `Key` carry none). -/
def pageKeys (contents : List Object) : List String :=
  contents.filterMap (fun obj => obj.Key)

/-- Every entry of the page has its `Key` present. -/
def keysPresent (contents : List Object) : Prop :=
  ∀ obj ∈ contents, obj.Key ≠ none

/-- The service call failed (returned a non-nil error). -/
def Call.failed : Call → Bool
  | .list _ (.error _) => true
  | .copy _ (.error _) => true
  | _ => false

/-- The call is a `CopyObject` call. -/
def Call.isCopy : Call → Bool
  | .copy _ _ => true
  | .list _ _ => false

/-- The keys delivered by one call: the contents of a successful list response. -/
def Call.keys : Call → List String
  | .list _ (.ok resp) => pageKeys resp.Contents
  | _ => []

/-- The keys delivered by the list calls of a trace, pages concatenated in call order. -/
def keysReceived (trace : List Call) : List String :=
  trace.flatMap Call.keys

/-- The request of a copy call. -/
def Call.copyInput : Call → Option CopyObjectInput
  | .copy input _ => some input
  | .list _ _ => none

/-- The copy requests of a trace, in call order. -/
def copiesIssued (trace : List Call) : List CopyObjectInput :=
  trace.filterMap Call.copyInput

/-- The calls of a `Sync` trace made by loop iteration `i`, in call order. -/
def callsOfPair (i : Nat) (trace : List Event) : List Call :=
  (trace.filter (fun e => e.pair == i)).map (fun e => e.call)

/-- The progress lines for a sequence of keys, numbered from `n`. -/
def progressLines : Nat → List String → List String
  | _, [] => []
  | n, key :: rest => ("Object " ++ toString n ++ ": " ++ key ++ "\n") :: progressLines (n + 1) rest

/-- Every successful list response of the trace has all its keys present. -/
def traceKeysPresent (trace : List Call) : Prop :=
  ∀ input resp, Call.list input (.ok resp) ∈ trace → keysPresent resp.Contents

/-- A list response that satisfies the service contract: truncation flag present,
every key present, and a next token present whenever the page is truncated. -/
def WellFormed (resp : ListObjectsV2Output) : Prop :=
  resp.IsTruncated ≠ none ∧ keysPresent resp.Contents ∧
    (resp.IsTruncated = some true → resp.NextContinuationToken ≠ none)

/-- No call of the trace failed. -/
def NoFailure (trace : List Call) : Prop :=
  ∀ c ∈ trace, c.failed = false

/-- No call of the `Sync` trace failed. -/
def NoFailedEvent (trace : List Event) : Prop :=
  ∀ e ∈ trace, e.call.failed = false

/-- The call serves the bucket pair: a list call on its source bucket, or a copy
call into its destination bucket. -/
def Call.serves (c : Call) (loc : Locations) : Prop :=
  match c with
  | .list input _ => input.Bucket = some loc.Source
  | .copy input _ => input.Bucket = some loc.Dest

/-- The order of two events of a trace, the first earlier than the second: the
first belongs to an earlier pair, or both belong to the same pair and it is not
a copy call followed by a list call. -/
def Precedes (x y : Event) : Prop :=
  x.pair < y.pair ∨ (x.pair = y.pair ∧ (x.call.isCopy = true → y.call.isCopy = true))

/-- The listing the specification describes, for a service that is a function
of the request: follow the chain of pages from `token` on, adopting each
returned next token, for at most `pages` pages, and collect `bucket/key` for
every key; `none` when a page call fails or no final page is reached. -/
def chainListing (S3 : Client Unit) (bucket : String) : Nat → Option String → Option (List String)
  | 0, _ => none
  | pages + 1, token =>
    match (S3.ListObjectsV2 () { Bucket := some bucket, ContinuationToken := token }).1 with
    | .error _ => none
    | .ok resp =>
      let refs := (pageKeys resp.Contents).map (fun k => bucket ++ "/" ++ k)
      if resp.IsTruncated = some true then
        (chainListing S3 bucket pages resp.NextContinuationToken).map (fun rest => refs ++ rest)
      else some refs

/-- A service that is a function of the request: listing bucket `locked` fails
with `AccessDenied`, bucket `empty` has no object, every other bucket has the
single object `k`; a copy into bucket `readonly` fails with `AccessDenied`,
every other copy succeeds. -/
def demoClient : Client Unit where
  ListObjectsV2 := fun _ input =>
    if input.Bucket = some "locked" then (.error "AccessDenied", ())
    else if input.Bucket = some "empty" then
      (.ok { Contents := [], IsTruncated := some false, NextContinuationToken := none }, ())
    else
      (.ok { Contents := [⟨some "k"⟩], IsTruncated := some false,
             NextContinuationToken := none }, ())
  CopyObject := fun _ input =>
    if input.Bucket = some "readonly" then (.error "AccessDenied", ()) else (.ok (), ())

/-- A service with state: the list responses still to be delivered.  Each list
call delivers the next one whatever its request says (an empty final page once
they are used up); every copy succeeds. -/
def scriptClient : Client (List (Except String ListObjectsV2Output)) where
  ListObjectsV2 := fun s _ =>
    match s with
    | [] => (.ok { Contents := [], IsTruncated := some false, NextContinuationToken := none }, [])
    | resp :: rest => (resp, rest)
  CopyObject := fun s _ => (.ok (), s)

/-- The two pages of scenario S1, as a script for `scriptClient`. -/
def s1Script : List (Except String ListObjectsV2Output) :=
  [.ok { Contents := [⟨some "a"⟩, ⟨some "b"⟩], IsTruncated := some true,
         NextContinuationToken := some "T" },
   .ok { Contents := [⟨some "c"⟩], IsTruncated := some false, NextContinuationToken := none }]

/-! ## Lemmas on the two inner loops of `listObjects` -/

theorem printLoop_of_keysPresent (contents : List Object) (n : Nat)
    (h : keysPresent contents) :
    printLoop contents n = (progressLines n (pageKeys contents), some (n + contents.length)) := by
  induction contents generalizing n with
  | nil => rfl
  | cons obj rest ih =>
    obtain ⟨key⟩ := obj
    cases key with
    | none => exact absurd rfl (h ⟨none⟩ (List.mem_cons_self _ _))
    | some k =>
      have hr : keysPresent rest := fun o ho => h o (List.mem_cons_of_mem _ ho)
      simp [printLoop, ih (n + 1) hr, pageKeys, progressLines]
      omega

theorem printLoop_some (contents : List Object) (n : Nat) (lines : List String) (m : Nat)
    (h : printLoop contents n = (lines, some m)) : keysPresent contents := by
  induction contents generalizing n lines with
  | nil => intro o ho; cases ho
  | cons obj rest ih =>
    obtain ⟨key⟩ := obj
    cases key with
    | none => simp [printLoop] at h
    | some k =>
      simp only [printLoop] at h
      have h2 : (printLoop rest (n + 1)).2 = some m := by
        have := congrArg Prod.snd h; simpa using this
      have := ih (n + 1) (printLoop rest (n + 1)).1 (by rw [← h2])
      intro o ho
      rcases List.mem_cons.1 ho with rfl | ho
      · simp
      · exact this o ho

theorem appendLoop_of_keysPresent (b : String) (contents : List Object) (acc : List String)
    (h : keysPresent contents) :
    appendLoop b contents acc = some (acc ++ (pageKeys contents).map (fun k => b ++ "/" ++ k)) := by
  induction contents generalizing acc with
  | nil => simp [appendLoop, pageKeys]
  | cons obj rest ih =>
    obtain ⟨key⟩ := obj
    cases key with
    | none => exact absurd rfl (h ⟨none⟩ (List.mem_cons_self _ _))
    | some k =>
      have hr : keysPresent rest := fun o ho => h o (List.mem_cons_of_mem _ ho)
      simp [appendLoop, ih _ hr, pageKeys]

/-! ## Lemmas on the loop of `listObjects` -/

/-- One iteration of the loop of `listObjects`, by cases on the response. -/
theorem listObjectsLoop_succ {σ : Type} (S3 : Client σ) (b : String) (ptr : TokenPtr)
    (fuel : Nat) (s : σ) (tok : String) (acc : List String) (n : Nat) :
    let input : ListObjectsV2Input := { Bucket := some b, ContinuationToken := ptr.deref tok }
    let r := S3.ListObjectsV2 s input
    let run := listObjectsLoop S3 b ptr (fuel + 1) s tok acc n
    (∃ err, r.1 = .error err ∧ run.state = r.2 ∧ run.trace = [.list input (.error err)] ∧
        run.stdout = [] ∧ run.outcome = .error ("unable to list objects, " ++ err)) ∨
    (∃ resp, r.1 = .ok resp ∧ ¬ keysPresent resp.Contents ∧ run.state = r.2 ∧
        run.trace = [.list input (.ok resp)] ∧ run.outcome = .panic) ∨
    (∃ resp, r.1 = .ok resp ∧ keysPresent resp.Contents ∧ resp.IsTruncated = none ∧
        run.state = r.2 ∧ run.trace = [.list input (.ok resp)] ∧
        run.stdout = progressLines n (pageKeys resp.Contents) ∧ run.outcome = .panic) ∨
    (∃ resp, r.1 = .ok resp ∧ keysPresent resp.Contents ∧ resp.IsTruncated = some false ∧
        run.state = r.2 ∧ run.trace = [.list input (.ok resp)] ∧
        run.stdout = progressLines n (pageKeys resp.Contents) ∧
        run.outcome = .ok (acc ++ (pageKeys resp.Contents).map (fun k => b ++ "/" ++ k))) ∨
    (∃ resp, r.1 = .ok resp ∧ keysPresent resp.Contents ∧ resp.IsTruncated = some true ∧
        resp.NextContinuationToken = none ∧
        run.state = r.2 ∧ run.trace = [.list input (.ok resp)] ∧
        run.stdout = progressLines n (pageKeys resp.Contents) ∧ run.outcome = .panic) ∨
    (∃ resp next, r.1 = .ok resp ∧ keysPresent resp.Contents ∧ resp.IsTruncated = some true ∧
        resp.NextContinuationToken = some next ∧
        run = (listObjectsLoop S3 b ptr fuel r.2 next
                (acc ++ (pageKeys resp.Contents).map (fun k => b ++ "/" ++ k))
                (n + resp.Contents.length)).after
              (.list input (.ok resp)) (progressLines n (pageKeys resp.Contents))) := by
  intro input r run
  have hrun : run = listObjectsLoop S3 b ptr (fuel + 1) s tok acc n := rfl
  have hr : r = S3.ListObjectsV2 s input := rfl
  rcases hresp : r.1 with err | resp
  · left
    refine ⟨err, rfl, ?_⟩
    simp only [hrun, listObjectsLoop, ← hr, hresp]
    exact ⟨trivial, trivial, trivial, trivial⟩
  · right
    by_cases hk : keysPresent resp.Contents
    · right
      have hp := printLoop_of_keysPresent resp.Contents n hk
      have ha := appendLoop_of_keysPresent b resp.Contents acc hk
      rcases htr : resp.IsTruncated with _ | _ | _
      · left
        refine ⟨resp, rfl, hk, htr, ?_⟩
        simp only [hrun, listObjectsLoop, ← hr, hresp, hp, ha, htr]
        exact ⟨trivial, trivial, trivial, trivial⟩
      · right; left
        refine ⟨resp, rfl, hk, htr, ?_⟩
        simp only [hrun, listObjectsLoop, ← hr, hresp, hp, ha, htr]
        exact ⟨trivial, trivial, trivial, trivial⟩
      · right; right
        rcases hn : resp.NextContinuationToken with _ | next
        · left
          refine ⟨resp, rfl, hk, htr, hn, ?_⟩
          simp only [hrun, listObjectsLoop, ← hr, hresp, hp, ha, htr, hn]
          exact ⟨trivial, trivial, trivial, trivial⟩
        · right
          refine ⟨resp, next, rfl, hk, htr, hn, ?_⟩
          simp only [hrun, listObjectsLoop, ← hr, hresp, hp, ha, htr, hn]
    · left
      refine ⟨resp, rfl, hk, ?_⟩
      rcases hp : printLoop resp.Contents n with ⟨lines, _ | m⟩
      · simp only [hrun, listObjectsLoop, ← hr, hresp, hp]
        exact ⟨trivial, trivial, trivial⟩
      · exact absurd (printLoop_some _ _ _ _ hp) hk

theorem progressLines_append (n : Nat) (xs ys : List String) :
    progressLines n (xs ++ ys) = progressLines n xs ++ progressLines (n + xs.length) ys := by
  induction xs generalizing n with
  | nil => simp [progressLines]
  | cons x xs ih =>
    have e : n + 1 + xs.length = n + (xs.length + 1) := by omega
    rw [List.cons_append]
    simp only [progressLines, List.length_cons, List.cons_append]
    rw [ih, e]

theorem pageKeys_length (contents : List Object) (h : keysPresent contents) :
    (pageKeys contents).length = contents.length := by
  induction contents with
  | nil => rfl
  | cons obj rest ih =>
    obtain ⟨key⟩ := obj
    cases key with
    | none => exact absurd rfl (h ⟨none⟩ (List.mem_cons_self _ _))
    | some k =>
      have hr : keysPresent rest := fun o ho => h o (List.mem_cons_of_mem _ ho)
      have := ih hr
      simp only [pageKeys] at this
      simp [pageKeys, this]

theorem keysReceived_cons (c : Call) (trace : List Call) :
    keysReceived (c :: trace) = c.keys ++ keysReceived trace := by
  simp [keysReceived]

theorem listObjectsLoop_calls {σ : Type} (S3 : Client σ) (b : String) (ptr : TokenPtr)
    (fuel : Nat) (s : σ) (tok : String) (acc : List String) (n : Nat) :
    ∀ c ∈ (listObjectsLoop S3 b ptr fuel s tok acc n).trace,
      ∃ input resp, c = .list input resp ∧ input.Bucket = some b ∧
        (ptr = .nil → input.ContinuationToken = none) := by
  induction fuel generalizing s tok acc n with
  | zero => intro c hc; simp [listObjectsLoop] at hc
  | succ fuel ih =>
    have hin : ∀ resp, ∃ input resp', Call.list ⟨some b, ptr.deref tok⟩ resp = .list input resp' ∧
        input.Bucket = some b ∧ (ptr = .nil → input.ContinuationToken = none) := fun resp =>
      ⟨_, _, rfl, rfl, fun h => by subst h; rfl⟩
    intro c hc
    rcases listObjectsLoop_succ S3 b ptr fuel s tok acc n with
      ⟨err, _, _, ht, _⟩ | ⟨resp, _, _, _, ht, _⟩ | ⟨resp, _, _, _, _, ht, _⟩ |
      ⟨resp, _, _, _, _, ht, _⟩ | ⟨resp, _, _, _, _, _, ht, _⟩ | ⟨resp, next, _, _, _, _, hrun⟩
    all_goals first
      | (rw [ht] at hc; rw [List.mem_singleton.1 hc]; exact hin _)
      | (rw [hrun] at hc
         rcases List.mem_cons.1 hc with rfl | hc
         · exact hin _
         · exact ih _ _ _ _ c hc)

theorem listObjectsLoop_abort {σ : Type} (S3 : Client σ) (b : String) (ptr : TokenPtr)
    (fuel : Nat) (s : σ) (tok : String) (acc : List String) (n : Nat) :
    (NoFailure (listObjectsLoop S3 b ptr fuel s tok acc n).trace ∧
      ∀ m, (listObjectsLoop S3 b ptr fuel s tok acc n).outcome ≠ .error m) ∨
    (∃ init input cause,
      (listObjectsLoop S3 b ptr fuel s tok acc n).trace = init ++ [.list input (.error cause)] ∧
      NoFailure init ∧
      (listObjectsLoop S3 b ptr fuel s tok acc n).outcome =
        .error ("unable to list objects, " ++ cause)) := by
  induction fuel generalizing s tok acc n with
  | zero => left; simp [listObjectsLoop, NoFailure]
  | succ fuel ih =>
    have hok : ∀ (input : ListObjectsV2Input) (resp : ListObjectsV2Output),
        NoFailure [Call.list input (.ok resp)] := by
      intro input resp c hc
      rw [List.mem_singleton.1 hc]; rfl
    rcases listObjectsLoop_succ S3 b ptr fuel s tok acc n with
      ⟨err, _, _, ht, _, ho⟩ | ⟨resp, _, _, _, ht, ho⟩ | ⟨resp, _, _, _, _, ht, _, ho⟩ |
      ⟨resp, _, _, _, _, ht, _, ho⟩ | ⟨resp, _, _, _, _, _, ht, _, ho⟩ |
      ⟨resp, next, _, _, _, _, hrun⟩
    · right
      refine ⟨[], ⟨some b, ptr.deref tok⟩, err, ?_, ?_, ho⟩
      · rw [ht]; rfl
      · intro c hc; cases hc
    · left; rw [ht, ho]; exact ⟨hok _ _, by intro m h; cases h⟩
    · left; rw [ht, ho]; exact ⟨hok _ _, by intro m h; cases h⟩
    · left; rw [ht, ho]; exact ⟨hok _ _, by intro m h; cases h⟩
    · left; rw [ht, ho]; exact ⟨hok _ _, by intro m h; cases h⟩
    · rw [hrun]
      rcases ih (S3.ListObjectsV2 s ⟨some b, ptr.deref tok⟩).2 next
          (acc ++ (pageKeys resp.Contents).map (fun k => b ++ "/" ++ k))
          (n + resp.Contents.length) with ⟨hnf, hne⟩ | ⟨init, input, cause, ht, hnf, ho⟩
      · left
        refine ⟨?_, hne⟩
        intro c hc
        rcases List.mem_cons.1 hc with rfl | hc
        · rfl
        · exact hnf c hc
      · right
        refine ⟨Call.list ⟨some b, ptr.deref tok⟩ (.ok resp) :: init, input, cause, ?_, ?_, ho⟩
        · simp only [Run.after, ht, List.cons_append]
        · intro c hc
          rcases List.mem_cons.1 hc with rfl | hc
          · rfl
          · exact hnf c hc

theorem listObjectsLoop_result {σ : Type} (S3 : Client σ) (b : String) (ptr : TokenPtr)
    (fuel : Nat) (s : σ) (tok : String) (acc : List String) (n : Nat) (l : List String)
    (h : (listObjectsLoop S3 b ptr fuel s tok acc n).outcome = .ok l) :
    l = acc ++ (keysReceived (listObjectsLoop S3 b ptr fuel s tok acc n).trace).map
          (fun k => b ++ "/" ++ k) := by
  induction fuel generalizing s tok acc n with
  | zero => simp [listObjectsLoop] at h
  | succ fuel ih =>
    rcases listObjectsLoop_succ S3 b ptr fuel s tok acc n with
      ⟨err, _, _, ht, _, ho⟩ | ⟨resp, _, _, _, ht, ho⟩ | ⟨resp, _, _, _, _, ht, _, ho⟩ |
      ⟨resp, _, _, _, _, ht, _, ho⟩ | ⟨resp, _, _, _, _, _, ht, _, ho⟩ |
      ⟨resp, next, _, _, _, _, hrun⟩
    · rw [ho] at h; cases h
    · rw [ho] at h; cases h
    · rw [ho] at h; cases h
    · rw [ho] at h
      injection h with h
      rw [ht, ← h]
      simp [keysReceived, Call.keys]
    · rw [ho] at h; cases h
    · rw [hrun] at h ⊢
      have := ih _ _ _ _ h
      rw [this]
      simp [Run.after, keysReceived_cons, Call.keys]

theorem listObjectsLoop_stdout {σ : Type} (S3 : Client σ) (b : String) (ptr : TokenPtr)
    (fuel : Nat) (s : σ) (tok : String) (acc : List String) (n : Nat)
    (h : traceKeysPresent (listObjectsLoop S3 b ptr fuel s tok acc n).trace) :
    (listObjectsLoop S3 b ptr fuel s tok acc n).stdout =
      progressLines n (keysReceived (listObjectsLoop S3 b ptr fuel s tok acc n).trace) := by
  induction fuel generalizing s tok acc n with
  | zero => simp [listObjectsLoop, keysReceived, progressLines]
  | succ fuel ih =>
    rcases listObjectsLoop_succ S3 b ptr fuel s tok acc n with
      ⟨err, _, _, ht, hs, ho⟩ | ⟨resp, _, hk, _, ht, ho⟩ | ⟨resp, _, _, _, _, ht, hs, ho⟩ |
      ⟨resp, _, _, _, _, ht, hs, ho⟩ | ⟨resp, _, _, _, _, _, ht, hs, ho⟩ |
      ⟨resp, next, _, hk, _, _, hrun⟩
    · rw [ht, hs]; simp [keysReceived, Call.keys, progressLines]
    · exact absurd (h _ resp (by rw [ht]; exact List.mem_singleton.2 rfl)) hk
    · rw [ht, hs]; simp [keysReceived, Call.keys]
    · rw [ht, hs]; simp [keysReceived, Call.keys]
    · rw [ht, hs]; simp [keysReceived, Call.keys]
    · rw [hrun] at h ⊢
      have h' : traceKeysPresent (listObjectsLoop S3 b ptr fuel
          (S3.ListObjectsV2 s ⟨some b, ptr.deref tok⟩).2 next
          (acc ++ (pageKeys resp.Contents).map (fun k => b ++ "/" ++ k))
          (n + resp.Contents.length)).trace := by
        intro input resp' hm
        exact h input resp' (List.mem_cons_of_mem _ hm)
      simp only [Run.after, keysReceived_cons, Call.keys, progressLines_append,
        pageKeys_length _ hk, ih _ _ _ _ h']

theorem listObjectsLoop_no_panic {σ : Type} (S3 : Client σ) (b : String) (ptr : TokenPtr)
    (fuel : Nat) (s : σ) (tok : String) (acc : List String) (n : Nat)
    (h : ∀ input resp, Call.list input (.ok resp) ∈
        (listObjectsLoop S3 b ptr fuel s tok acc n).trace → WellFormed resp) :
    (listObjectsLoop S3 b ptr fuel s tok acc n).outcome ≠ .panic := by
  induction fuel generalizing s tok acc n with
  | zero => simp [listObjectsLoop]
  | succ fuel ih =>
    rcases listObjectsLoop_succ S3 b ptr fuel s tok acc n with
      ⟨err, _, _, ht, hs, ho⟩ | ⟨resp, _, hk, _, ht, ho⟩ | ⟨resp, _, _, htr, _, ht, hs, ho⟩ |
      ⟨resp, _, _, _, _, ht, hs, ho⟩ | ⟨resp, _, _, htr, hn, _, ht, hs, ho⟩ |
      ⟨resp, next, _, hk, _, _, hrun⟩
    · rw [ho]; intro hc; cases hc
    · exact absurd (h _ resp (by rw [ht]; exact List.mem_singleton.2 rfl)).2.1 hk
    · exact absurd htr (h _ resp (by rw [ht]; exact List.mem_singleton.2 rfl)).1
    · rw [ho]; intro hc; cases hc
    · exact absurd hn ((h _ resp (by rw [ht]; exact List.mem_singleton.2 rfl)).2.2 htr)
    · rw [hrun] at h ⊢
      exact ih _ _ _ _ (fun input resp' hm => h input resp' (List.mem_cons_of_mem _ hm))

/-! ## Lemmas on `migrate` and on the observations -/

/-- One iteration of the loop of `migrate`, by cases on the response. -/
theorem migrate_cons {σ : Type} (S3 : Client σ) (obj : String) (rest : List String)
    (d : String) (s : σ) :
    let input : CopyObjectInput := { Bucket := some d, CopySource := some obj, Key := some obj }
    let r := S3.CopyObject s input
    let run := migrate S3 (obj :: rest) d s
    (∃ err, r.1 = .error err ∧ run.state = r.2 ∧ run.trace = [.copy input (.error err)] ∧
        run.stdout = [] ∧ run.outcome = .error ("unable to copy object, " ++ err)) ∨
    (r.1 = .ok () ∧ run = (migrate S3 rest d r.2).after (.copy input (.ok ())) []) := by
  intro input r run
  have hrun : run = migrate S3 (obj :: rest) d s := rfl
  have hr : r = S3.CopyObject s input := rfl
  rcases hresp : r.1 with err | u
  · left
    refine ⟨err, rfl, ?_⟩
    simp only [hrun, migrate, ← hr, hresp]
    exact ⟨trivial, trivial, trivial, trivial⟩
  · right
    refine ⟨rfl, ?_⟩
    simp only [hrun, migrate, ← hr, hresp]

theorem migrate_calls {σ : Type} (S3 : Client σ) (objs : List String) (d : String) (s : σ) :
    ∀ c ∈ (migrate S3 objs d s).trace,
      ∃ input resp, c = .copy input resp ∧ input.Bucket = some d := by
  induction objs generalizing s with
  | nil => intro c hc; simp [migrate] at hc
  | cons obj rest ih =>
    intro c hc
    rcases migrate_cons S3 obj rest d s with ⟨err, _, _, ht, _⟩ | ⟨_, hrun⟩
    · rw [ht] at hc; rw [List.mem_singleton.1 hc]; exact ⟨_, _, rfl, rfl⟩
    · rw [hrun] at hc
      rcases List.mem_cons.1 hc with rfl | hc
      · exact ⟨_, _, rfl, rfl⟩
      · exact ih _ c hc

theorem migrate_abort {σ : Type} (S3 : Client σ) (objs : List String) (d : String) (s : σ) :
    (NoFailure (migrate S3 objs d s).trace ∧ (migrate S3 objs d s).outcome = .ok () ∧
      copiesIssued (migrate S3 objs d s).trace =
        objs.map (fun obj => { Bucket := some d, CopySource := some obj, Key := some obj })) ∨
    (∃ init input cause,
      (migrate S3 objs d s).trace = init ++ [.copy input (.error cause)] ∧ NoFailure init ∧
      (migrate S3 objs d s).outcome = .error ("unable to copy object, " ++ cause)) := by
  induction objs generalizing s with
  | nil => left; simp [migrate, NoFailure, copiesIssued]
  | cons obj rest ih =>
    rcases migrate_cons S3 obj rest d s with ⟨err, _, _, ht, _, ho⟩ | ⟨_, hrun⟩
    · right
      refine ⟨[], ⟨some d, some obj, some obj⟩, err, ?_, ?_, ho⟩
      · rw [ht]; rfl
      · intro c hc; cases hc
    · rw [hrun]
      rcases ih (S3.CopyObject s ⟨some d, some obj, some obj⟩).2 with
        ⟨hnf, ho, hc⟩ | ⟨init, input, cause, ht, hnf, ho⟩
      · left
        refine ⟨?_, ho, ?_⟩
        · intro c hc
          rcases List.mem_cons.1 hc with rfl | hc
          · rfl
          · exact hnf c hc
        · simp only [Run.after, copiesIssued, List.filterMap_cons, Call.copyInput, List.map_cons]
          rw [← hc]; rfl
      · right
        refine ⟨Call.copy ⟨some d, some obj, some obj⟩ (.ok ()) :: init, input, cause, ?_, ?_, ho⟩
        · simp only [Run.after, ht, List.cons_append]
        · intro c hc
          rcases List.mem_cons.1 hc with rfl | hc
          · rfl
          · exact hnf c hc

theorem keysReceived_of_copies (trace : List Call)
    (h : ∀ c ∈ trace, ∃ input resp, c = Call.copy input resp) : keysReceived trace = [] := by
  induction trace with
  | nil => rfl
  | cons c rest ih =>
    obtain ⟨input, resp, rfl⟩ := h c (List.mem_cons_self _ _)
    rw [keysReceived_cons, ih (fun c hc => h c (List.mem_cons_of_mem _ hc))]
    rfl

theorem copiesIssued_of_lists (trace : List Call)
    (h : ∀ c ∈ trace, ∃ input resp, c = Call.list input resp) : copiesIssued trace = [] := by
  induction trace with
  | nil => rfl
  | cons c rest ih =>
    obtain ⟨input, resp, rfl⟩ := h c (List.mem_cons_self _ _)
    have := ih (fun c hc => h c (List.mem_cons_of_mem _ hc))
    simp only [copiesIssued] at this ⊢
    simp [Call.copyInput, this]

theorem keysReceived_append (t1 t2 : List Call) :
    keysReceived (t1 ++ t2) = keysReceived t1 ++ keysReceived t2 := by
  simp [keysReceived]

theorem copiesIssued_append (t1 t2 : List Call) :
    copiesIssued (t1 ++ t2) = copiesIssued t1 ++ copiesIssued t2 := by
  simp [copiesIssued]

theorem callsOfPair_append (i : Nat) (t1 t2 : List Event) :
    callsOfPair i (t1 ++ t2) = callsOfPair i t1 ++ callsOfPair i t2 := by
  simp [callsOfPair]

theorem callsOfPair_tag_self (i : Nat) (calls : List Call) :
    callsOfPair i (tag i calls) = calls := by
  induction calls with
  | nil => rfl
  | cons c rest ih =>
    simp only [callsOfPair, tag] at ih ⊢
    simp [ih]

theorem callsOfPair_tag_ne (i j : Nat) (calls : List Call) (h : i ≠ j) :
    callsOfPair j (tag i calls) = [] := by
  induction calls with
  | nil => rfl
  | cons c rest ih =>
    simp only [callsOfPair, tag] at ih ⊢
    simp [ih, h]

theorem callsOfPair_of_lt (j : Nat) (trace : List Event) (h : ∀ e ∈ trace, j < e.pair) :
    callsOfPair j trace = [] := by
  induction trace with
  | nil => rfl
  | cons e rest ih =>
    have h1 := h e (List.mem_cons_self _ _)
    have h2 := ih (fun e he => h e (List.mem_cons_of_mem _ he))
    simp only [callsOfPair] at h2 ⊢
    have : (e.pair == j) = false := by simp; omega
    simp [List.filter_cons, this, h2]

theorem mem_tag (i : Nat) (calls : List Call) (e : Event) (h : e ∈ tag i calls) :
    e.pair = i ∧ e.call ∈ calls := by
  simp only [tag, List.mem_map] at h
  obtain ⟨c, hc, rfl⟩ := h
  exact ⟨rfl, hc⟩

/-! ## Lemmas on `Sync` -/

/-- One iteration of the loop of `Sync`, by cases on how `listObjects` and
`migrate` ended. -/
theorem SyncFrom_cons {σ : Type} (S3 : Client σ) (fuel i : Nat) (loc : Locations)
    (rest : List Locations) (s : σ) :
    let l := listObjects S3 fuel loc.Source s
    let run := SyncFrom S3 fuel i (loc :: rest) s
    (run.state = l.state ∧ run.trace = tag i l.trace ∧ run.stdout = l.stdout ∧
      ((∃ err, l.outcome = .error err ∧
          run.outcome = .error ("unable to list objects, " ++ err)) ∨
        (l.outcome = .panic ∧ run.outcome = .panic) ∨
        (l.outcome = .timeout ∧ run.outcome = .timeout))) ∨
    (∃ objs err, l.outcome = .ok objs ∧
      (migrate S3 objs loc.Dest l.state).outcome = .error err ∧
      run.state = (migrate S3 objs loc.Dest l.state).state ∧
      run.trace = tag i l.trace ++ tag i (migrate S3 objs loc.Dest l.state).trace ∧
      run.stdout = l.stdout ++ (migrate S3 objs loc.Dest l.state).stdout ∧
      run.outcome = .error ("unable to migrate objects, " ++ err)) ∨
    (∃ objs, l.outcome = .ok objs ∧
      (migrate S3 objs loc.Dest l.state).outcome = .ok () ∧
      run.state = (SyncFrom S3 fuel (i + 1) rest (migrate S3 objs loc.Dest l.state).state).state ∧
      run.trace = tag i l.trace ++ tag i (migrate S3 objs loc.Dest l.state).trace ++
        (SyncFrom S3 fuel (i + 1) rest (migrate S3 objs loc.Dest l.state).state).trace ∧
      run.stdout = l.stdout ++ (migrate S3 objs loc.Dest l.state).stdout ++
        (SyncFrom S3 fuel (i + 1) rest (migrate S3 objs loc.Dest l.state).state).stdout ∧
      run.outcome =
        (SyncFrom S3 fuel (i + 1) rest (migrate S3 objs loc.Dest l.state).state).outcome) := by
  intro l run
  have hrun : run = SyncFrom S3 fuel i (loc :: rest) s := rfl
  have hl : l = listObjects S3 fuel loc.Source s := rfl
  rcases hlo : l.outcome with objs | err | _ | _
  · right
    rcases migrate_abort S3 objs loc.Dest l.state with ⟨_, hmo, _⟩ | ⟨_, _, cause, _, _, hmo⟩
    · right
      refine ⟨objs, rfl, hmo, ?_⟩
      simp only [hrun, SyncFrom, ← hl, hlo, hmo]
      exact ⟨trivial, trivial, trivial, trivial⟩
    · left
      refine ⟨objs, _, rfl, hmo, ?_⟩
      simp only [hrun, SyncFrom, ← hl, hlo, hmo]
      exact ⟨trivial, trivial, trivial, trivial⟩
  · left
    simp only [hrun, SyncFrom, ← hl, hlo]
    exact ⟨trivial, trivial, trivial, Or.inl ⟨err, rfl, rfl⟩⟩
  · left
    simp only [hrun, SyncFrom, ← hl, hlo]
    exact ⟨trivial, trivial, trivial, Or.inr (Or.inl ⟨trivial, trivial⟩)⟩
  · left
    simp only [hrun, SyncFrom, ← hl, hlo]
    exact ⟨trivial, trivial, trivial, Or.inr (Or.inr ⟨trivial, trivial⟩)⟩

theorem listObjects_eq {σ : Type} (S3 : Client σ) (fuel : Nat) (b : String) (s : σ) :
    listObjects S3 fuel b s = listObjectsLoop S3 b .nil fuel s "" [] 0 := rfl

theorem listObjects_calls {σ : Type} (S3 : Client σ) (fuel : Nat) (b : String) (s : σ) :
    ∀ c ∈ (listObjects S3 fuel b s).trace,
      ∃ resp, c = .list { Bucket := some b, ContinuationToken := none } resp := by
  intro c hc
  rw [listObjects_eq] at hc
  obtain ⟨⟨bk, tk⟩, resp, rfl, h1, h2⟩ := listObjectsLoop_calls S3 b .nil fuel s "" [] 0 c hc
  simp only at h1
  have h3 := h2 rfl
  simp only at h3
  subst h1; subst h3
  exact ⟨resp, rfl⟩

theorem pairwise_tag_lists (i : Nat) (calls : List Call)
    (h : ∀ c ∈ calls, c.isCopy = false) : (tag i calls).Pairwise Precedes := by
  rw [List.pairwise_iff_forall_sublist]
  intro x y hxy
  have hx := mem_tag i calls x (hxy.subset (by simp))
  have hy := mem_tag i calls y (hxy.subset (by simp))
  right
  refine ⟨by rw [hx.1, hy.1], ?_⟩
  intro hc
  rw [h _ hx.2] at hc
  cases hc

theorem pairwise_tag_copies (i : Nat) (calls : List Call)
    (h : ∀ c ∈ calls, c.isCopy = true) : (tag i calls).Pairwise Precedes := by
  rw [List.pairwise_iff_forall_sublist]
  intro x y hxy
  have hx := mem_tag i calls x (hxy.subset (by simp))
  have hy := mem_tag i calls y (hxy.subset (by simp))
  right
  exact ⟨by rw [hx.1, hy.1], fun _ => h _ hy.2⟩

theorem listObjects_isCopy {σ : Type} (S3 : Client σ) (fuel : Nat) (b : String) (s : σ) :
    ∀ c ∈ (listObjects S3 fuel b s).trace, c.isCopy = false := by
  intro c hc
  obtain ⟨resp, rfl⟩ := listObjects_calls S3 fuel b s c hc
  rfl

theorem migrate_isCopy {σ : Type} (S3 : Client σ) (objs : List String) (d : String) (s : σ) :
    ∀ c ∈ (migrate S3 objs d s).trace, c.isCopy = true := by
  intro c hc
  obtain ⟨input, resp, rfl, _⟩ := migrate_calls S3 objs d s c hc
  rfl

/-- Every event of the loop from iteration `i` on belongs to an iteration `≥ i`
and serves that iteration's bucket pair; the events are in trace order. -/
theorem SyncFrom_order {σ : Type} (S3 : Client σ) (fuel i : Nat) (locs : List Locations)
    (s : σ) :
    (∀ e ∈ (SyncFrom S3 fuel i locs s).trace,
      i ≤ e.pair ∧ ∃ loc, locs[e.pair - i]? = some loc ∧ e.call.serves loc) ∧
    (SyncFrom S3 fuel i locs s).trace.Pairwise Precedes := by
  induction locs generalizing i s with
  | nil => simp [SyncFrom]
  | cons loc rest ih =>
    have hl : ∀ e ∈ tag i (listObjects S3 fuel loc.Source s).trace,
        e.pair = i ∧ e.call.isCopy = false ∧ e.call.serves loc := by
      intro e he
      obtain ⟨h1, h2⟩ := mem_tag _ _ _ he
      obtain ⟨resp, h3⟩ := listObjects_calls S3 fuel loc.Source s _ h2
      refine ⟨h1, by rw [h3]; rfl, by rw [h3]; rfl⟩
    have hm : ∀ objs s', ∀ e ∈ tag i (migrate S3 objs loc.Dest s').trace,
        e.pair = i ∧ e.call.isCopy = true ∧ e.call.serves loc := by
      intro objs s' e he
      obtain ⟨h1, h2⟩ := mem_tag _ _ _ he
      obtain ⟨input, resp, h3, h4⟩ := migrate_calls S3 objs loc.Dest s' _ h2
      refine ⟨h1, by rw [h3]; rfl, by rw [h3]; exact h4⟩
    have hhead : ∀ e : Event, e.pair = i → e.call.serves loc →
        i ≤ e.pair ∧ ∃ loc', (loc :: rest)[e.pair - i]? = some loc' ∧ e.call.serves loc' := by
      intro e h1 h2
      refine ⟨by omega, loc, ?_, h2⟩
      rw [h1]; simp
    have hpl := pairwise_tag_lists i _ (listObjects_isCopy S3 fuel loc.Source s)
    have hpm := fun objs s' => pairwise_tag_copies i _ (migrate_isCopy S3 objs loc.Dest s')
    have hlm : ∀ objs s', ∀ a ∈ tag i (listObjects S3 fuel loc.Source s).trace,
        ∀ b ∈ tag i (migrate S3 objs loc.Dest s').trace, Precedes a b := by
      intro objs s' a ha b hb
      right
      exact ⟨by rw [(hl a ha).1, (hm objs s' b hb).1], fun _ => (hm objs s' b hb).2.1⟩
    rcases SyncFrom_cons S3 fuel i loc rest s with
      ⟨_, ht, _, _⟩ | ⟨objs, err, _, _, _, ht, _, _⟩ | ⟨objs, _, _, _, ht, _, _⟩
    · rw [ht]
      exact ⟨fun e he => hhead e (hl e he).1 (hl e he).2.2, hpl⟩
    · rw [ht]
      refine ⟨?_, ?_⟩
      · intro e he
        rcases List.mem_append.1 he with he | he
        · exact hhead e (hl e he).1 (hl e he).2.2
        · exact hhead e (hm _ _ e he).1 (hm _ _ e he).2.2
      · exact List.pairwise_append.2 ⟨hpl, hpm _ _, hlm _ _⟩
    · rw [ht]
      obtain ⟨ih1, ih2⟩ := ih (i + 1)
        (migrate S3 objs loc.Dest (listObjects S3 fuel loc.Source s).state).state
      have hhd : ∀ e ∈ tag i (listObjects S3 fuel loc.Source s).trace ++
          tag i (migrate S3 objs loc.Dest (listObjects S3 fuel loc.Source s).state).trace,
          e.pair = i ∧ e.call.serves loc := by
        intro e he
        rcases List.mem_append.1 he with he | he
        · exact ⟨(hl e he).1, (hl e he).2.2⟩
        · exact ⟨(hm _ _ e he).1, (hm _ _ e he).2.2⟩
      refine ⟨?_, ?_⟩
      · intro e he
        rcases List.mem_append.1 he with he | he
        · exact hhead e (hhd e he).1 (hhd e he).2
        · obtain ⟨h1, loc', h2, h3⟩ := ih1 e he
          refine ⟨by omega, loc', ?_, h3⟩
          have e1 : e.pair - i = (e.pair - (i + 1)) + 1 := by omega
          rw [e1, List.getElem?_cons_succ]
          exact h2
      · refine List.pairwise_append.2 ⟨List.pairwise_append.2 ⟨hpl, hpm _ _, hlm _ _⟩, ih2, ?_⟩
        intro a ha b hb
        left
        have := (ih1 b hb).1
        rw [(hhd a ha).1]
        omega

theorem noFailedEvent_tag (i : Nat) (calls : List Call) (h : NoFailure calls) :
    NoFailedEvent (tag i calls) := by
  intro e he
  exact h _ (mem_tag i calls e he).2

theorem noFailedEvent_append (t1 t2 : List Event) (h1 : NoFailedEvent t1)
    (h2 : NoFailedEvent t2) : NoFailedEvent (t1 ++ t2) := by
  intro e he
  rcases List.mem_append.1 he with he | he
  · exact h1 e he
  · exact h2 e he

theorem tag_append (i : Nat) (t1 t2 : List Call) : tag i (t1 ++ t2) = tag i t1 ++ tag i t2 := by
  simp [tag]

/-- How the loop of `Sync` from iteration `i` on ends: without a failed call and
without an error, or with a failed list call as its last call, or with a failed
copy call as its last call; the error returned is fixed by the kind of the
failed call and its cause. -/
theorem SyncFrom_abort {σ : Type} (S3 : Client σ) (fuel i : Nat) (locs : List Locations)
    (s : σ) :
    (NoFailedEvent (SyncFrom S3 fuel i locs s).trace ∧
      ∀ m, (SyncFrom S3 fuel i locs s).outcome ≠ .error m) ∨
    (∃ init j input cause,
      (SyncFrom S3 fuel i locs s).trace = init ++ [⟨j, .list input (.error cause)⟩] ∧
      NoFailedEvent init ∧
      (SyncFrom S3 fuel i locs s).outcome =
        .error ("unable to list objects, " ++ ("unable to list objects, " ++ cause)) ∧
      ∀ e ∈ init, e.pair = j → e.call.isCopy = false) ∨
    (∃ init j input cause,
      (SyncFrom S3 fuel i locs s).trace = init ++ [⟨j, .copy input (.error cause)⟩] ∧
      NoFailedEvent init ∧
      (SyncFrom S3 fuel i locs s).outcome =
        .error ("unable to migrate objects, " ++ ("unable to copy object, " ++ cause))) := by
  induction locs generalizing i s with
  | nil => left; simp [SyncFrom, NoFailedEvent]
  | cons loc rest ih =>
    have hla := listObjectsLoop_abort S3 loc.Source .nil fuel s "" [] 0
    rw [← listObjects_eq] at hla
    rcases SyncFrom_cons S3 fuel i loc rest s with
      ⟨_, ht, _, ho⟩ | ⟨objs, err, hlo, hmo, _, ht, _, ho⟩ | ⟨objs, hlo, hmo, _, ht, _, ho⟩
    · rcases hla with ⟨hnf, hne⟩ | ⟨init, input, cause, hlt, hnf, hlo⟩
      · left
        rw [ht]
        refine ⟨noFailedEvent_tag i _ hnf, ?_⟩
        rcases ho with ⟨err, h1, _⟩ | ⟨_, h2⟩ | ⟨_, h2⟩
        · exact absurd h1 (hne err)
        · rw [h2]; intro m hm; cases hm
        · rw [h2]; intro m hm; cases hm
      · right; left
        refine ⟨tag i init, i, input, cause, ?_, noFailedEvent_tag i _ hnf, ?_, ?_⟩
        · rw [ht, hlt, tag_append]; rfl
        · rcases ho with ⟨err, h1, h2⟩ | ⟨h1, _⟩ | ⟨h1, _⟩
          · rw [hlo] at h1
            injection h1 with h1
            rw [h2, ← h1]
          · rw [hlo] at h1; cases h1
          · rw [hlo] at h1; cases h1
        · intro e he _
          have h1 := (mem_tag i init e he).2
          exact listObjects_isCopy S3 fuel loc.Source s _ (by rw [hlt]; exact List.mem_append_left _ h1)
    · rcases hla with ⟨hnf, _⟩ | ⟨_, _, _, _, _, hlo'⟩
      · rcases migrate_abort S3 objs loc.Dest (listObjects S3 fuel loc.Source s).state with
          ⟨_, hmo', _⟩ | ⟨init, input, cause, hmt, hmnf, hmo'⟩
        · rw [hmo] at hmo'; cases hmo'
        · right; right
          refine ⟨tag i (listObjects S3 fuel loc.Source s).trace ++ tag i init, i, input, cause,
            ?_, noFailedEvent_append _ _ (noFailedEvent_tag i _ hnf) (noFailedEvent_tag i _ hmnf), ?_⟩
          · rw [ht, hmt, tag_append, List.append_assoc]; rfl
          · rw [hmo] at hmo'
            injection hmo' with h1
            rw [ho, h1]
      · rw [hlo] at hlo'; cases hlo'
    · have hnfl : NoFailure (listObjects S3 fuel loc.Source s).trace := by
        rcases hla with ⟨hnf, _⟩ | ⟨_, _, _, _, _, hlo'⟩
        · exact hnf
        · rw [hlo] at hlo'; cases hlo'
      have hnfm : NoFailure (migrate S3 objs loc.Dest (listObjects S3 fuel loc.Source s).state).trace := by
        rcases migrate_abort S3 objs loc.Dest (listObjects S3 fuel loc.Source s).state with
          ⟨hnf, _, _⟩ | ⟨_, _, _, _, _, hmo'⟩
        · exact hnf
        · rw [hmo] at hmo'; cases hmo'
      have hhead := noFailedEvent_append _ _ (noFailedEvent_tag i _ hnfl) (noFailedEvent_tag i _ hnfm)
      have hord := (SyncFrom_order S3 fuel (i + 1) rest
        (migrate S3 objs loc.Dest (listObjects S3 fuel loc.Source s).state).state).1
      rw [ht, ho]
      rcases ih (i + 1) (migrate S3 objs loc.Dest (listObjects S3 fuel loc.Source s).state).state with
        ⟨hnf, hne⟩ | ⟨init, j, input, cause, hst, hnf, hso, hnc⟩ | ⟨init, j, input, cause, hst, hnf, hso⟩
      · left
        exact ⟨noFailedEvent_append _ _ hhead hnf, hne⟩
      · right; left
        refine ⟨tag i (listObjects S3 fuel loc.Source s).trace ++
          tag i (migrate S3 objs loc.Dest (listObjects S3 fuel loc.Source s).state).trace ++ init,
          j, input, cause, ?_, noFailedEvent_append _ _ hhead hnf, hso, ?_⟩
        · rw [hst]; simp only [List.append_assoc]
        · have hj : i + 1 ≤ j := by
            have := (hord ⟨j, .list input (.error cause)⟩ (by rw [hst]; simp)).1
            exact this
          intro e he hej
          rcases List.mem_append.1 he with he | he
          · rcases List.mem_append.1 he with he | he
            · have := (mem_tag _ _ _ he).1; omega
            · have := (mem_tag _ _ _ he).1; omega
          · exact hnc e he hej
      · right; right
        refine ⟨tag i (listObjects S3 fuel loc.Source s).trace ++
          tag i (migrate S3 objs loc.Dest (listObjects S3 fuel loc.Source s).state).trace ++ init,
          j, input, cause, ?_, noFailedEvent_append _ _ hhead hnf, hso⟩
        rw [hst]; simp only [List.append_assoc]

/-- A failed event of a trace whose calls before the last did not fail is the last. -/
theorem failed_is_last (init : List Event) (x : Event) (pre suf : List Event) (e : Event)
    (h : init ++ [x] = pre ++ e :: suf) (hnf : NoFailedEvent init)
    (he : e.call.failed = true) : suf = [] ∧ pre = init ∧ e = x := by
  induction init generalizing pre with
  | nil =>
    cases pre with
    | nil =>
      simp only [List.nil_append, List.cons.injEq] at h
      exact ⟨h.2.symm, rfl, h.1.symm⟩
    | cons p pre =>
      simp only [List.nil_append, List.cons_append, List.cons.injEq] at h
      have := h.2
      cases pre <;> simp at this
  | cons a init ih =>
    cases pre with
    | nil =>
      simp only [List.nil_append, List.cons_append, List.cons.injEq] at h
      have := hnf a (List.mem_cons_self _ _)
      rw [h.1, he] at this
      cases this
    | cons p pre =>
      simp only [List.cons_append, List.cons.injEq] at h
      obtain ⟨h1, h2, h3⟩ := ih pre h.2 (fun e he => hnf e (List.mem_cons_of_mem _ he))
      exact ⟨h1, by rw [h.1, h2], h3⟩

/-- The copy requests of pair `i + k` are one per key delivered to that pair, in
delivery order, when the pairs up to it were processed without error. -/
theorem SyncFrom_copies {σ : Type} (S3 : Client σ) (fuel i : Nat) (locs : List Locations)
    (s : σ) (k : Nat) (loc : Locations) (hk : locs[k]? = some loc)
    (hok : (SyncFrom S3 fuel i (locs.take (k + 1)) s).outcome = .ok ()) :
    copiesIssued (callsOfPair (i + k) (SyncFrom S3 fuel i locs s).trace) =
      (keysReceived (callsOfPair (i + k) (SyncFrom S3 fuel i locs s).trace)).map
        (fun key => { Bucket := some loc.Dest, CopySource := some (loc.Source ++ "/" ++ key),
                      Key := some (loc.Source ++ "/" ++ key) }) := by
  induction locs generalizing i s k with
  | nil => simp at hk
  | cons loc0 rest ih =>
    rw [List.take_succ_cons] at hok
    rcases SyncFrom_cons S3 fuel i loc0 (rest.take k) s with
      ⟨_, _, _, ho⟩ | ⟨objs, err, _, _, _, _, _, ho⟩ | ⟨objs, hlo, hmo, _, _, _, ho⟩
    · rcases ho with ⟨err, _, h⟩ | ⟨_, h⟩ | ⟨_, h⟩ <;> (rw [h] at hok; cases hok)
    · rw [ho] at hok; cases hok
    · rw [ho] at hok
      rcases SyncFrom_cons S3 fuel i loc0 rest s with
        ⟨_, _, _, ho'⟩ | ⟨objs', err, hlo', hmo', _⟩ | ⟨objs', hlo', _, _, ht, _⟩
      · rcases ho' with ⟨err, h, _⟩ | ⟨h, _⟩ | ⟨h, _⟩ <;> (rw [hlo] at h; cases h)
      · rw [hlo] at hlo'; injection hlo' with e; subst e
        rw [hmo] at hmo'; cases hmo'
      · rw [hlo] at hlo'; injection hlo' with e; subst e
        rw [ht]
        have hord := (SyncFrom_order S3 fuel (i + 1) rest
          (migrate S3 objs loc0.Dest (listObjects S3 fuel loc0.Source s).state).state).1
        cases k with
        | zero =>
          simp only [List.getElem?_cons_zero, Option.some.injEq] at hk
          subst hk
          have htail : callsOfPair i (SyncFrom S3 fuel (i + 1) rest
              (migrate S3 objs loc0.Dest (listObjects S3 fuel loc0.Source s).state).state).trace
              = [] :=
            callsOfPair_of_lt i _ (fun e he => by have := (hord e he).1; omega)
          have hcl : copiesIssued (listObjects S3 fuel loc0.Source s).trace = [] :=
            copiesIssued_of_lists _ (fun c hc => by
              obtain ⟨resp, h⟩ := listObjects_calls S3 fuel loc0.Source s c hc
              exact ⟨_, _, h⟩)
          have hkm : keysReceived
              (migrate S3 objs loc0.Dest (listObjects S3 fuel loc0.Source s).state).trace = [] :=
            keysReceived_of_copies _ (fun c hc => by
              obtain ⟨input, resp, h, _⟩ := migrate_calls S3 objs loc0.Dest _ c hc
              exact ⟨_, _, h⟩)
          have hcm : copiesIssued
              (migrate S3 objs loc0.Dest (listObjects S3 fuel loc0.Source s).state).trace =
              objs.map (fun obj => { Bucket := some loc0.Dest, CopySource := some obj,
                                     Key := some obj }) := by
            rcases migrate_abort S3 objs loc0.Dest (listObjects S3 fuel loc0.Source s).state with
              ⟨_, _, h⟩ | ⟨_, _, _, _, _, h⟩
            · exact h
            · rw [hmo] at h; cases h
          have hres := listObjectsLoop_result S3 loc0.Source .nil fuel s "" [] 0 objs
            (by rw [← listObjects_eq]; exact hlo)
          rw [← listObjects_eq, List.nil_append] at hres
          simp only [Nat.add_zero, callsOfPair_append, callsOfPair_tag_self, htail,
            List.append_nil, copiesIssued_append, keysReceived_append, hcl, hkm, hcm,
            List.nil_append]
          rw [hres, List.map_map]
          rfl
        | succ k =>
          simp only [List.getElem?_cons_succ] at hk
          have e1 : i + (k + 1) = i + 1 + k := by omega
          have hne : i ≠ i + 1 + k := by omega
          rw [e1]
          simp only [callsOfPair_append, callsOfPair_tag_ne i (i + 1 + k) _ hne,
            List.nil_append]
          exact ih (i + 1) _ k hk hok

theorem progressLines_length (n : Nat) (keys : List String) :
    (progressLines n keys).length = keys.length := by
  induction keys generalizing n with
  | nil => rfl
  | cons k rest ih => simp [progressLines, ih]

theorem progressLines_getElem? (m : Nat) (keys : List String) (n : Nat) (key : String)
    (h : keys[n]? = some key) :
    (progressLines m keys)[n]? = some ("Object " ++ toString (m + n) ++ ": " ++ key ++ "\n") := by
  induction keys generalizing m n with
  | nil => simp at h
  | cons k rest ih =>
    cases n with
    | zero =>
      simp only [List.getElem?_cons_zero, Option.some.injEq] at h
      simp [progressLines, h]
    | succ n =>
      simp only [List.getElem?_cons_succ] at h
      simp only [progressLines, List.getElem?_cons_succ]
      rw [ih (m + 1) n h, show m + 1 + n = m + (n + 1) by omega]

/-- Against `s1Client` the loop never ends: every iteration re-requests the
first page, which is truncated. -/
theorem s1_loop (fuel : Nat) (tok : String) (acc : List String) (n : Nat) :
    (listObjectsLoop s1Client "src" .nil fuel () tok acc n).outcome = .timeout ∧
    (listObjectsLoop s1Client "src" .nil fuel () tok acc n).trace.length = fuel := by
  induction fuel generalizing tok acc n with
  | zero => exact ⟨rfl, rfl⟩
  | succ fuel ih =>
    simp only [listObjectsLoop, s1Client, TokenPtr.deref, printLoop, appendLoop, Run.after,
      List.length_cons]
    exact ⟨(ih _ _ _).1, congrArg (fun m => m + 1) (ih _ _ _).2⟩

theorem mem_callsOfPair (i : Nat) (trace : List Event) (c : Call) (h : c ∈ callsOfPair i trace) :
    ∃ e ∈ trace, e.pair = i ∧ e.call = c := by
  simp only [callsOfPair, List.mem_map, List.mem_filter, beq_iff_eq] at h
  obtain ⟨e, ⟨he, hp⟩, hc⟩ := h
  exact ⟨e, he, hp, hc⟩

theorem copiesIssued_of_not_copy (trace : List Call) (h : ∀ c ∈ trace, c.isCopy = false) :
    copiesIssued trace = [] := by
  apply copiesIssued_of_lists
  intro c hc
  have := h c hc
  cases c with
  | list input resp => exact ⟨_, _, rfl⟩
  | copy input resp => cases this

theorem migrate_trace_ok {σ : Type} (S3 : Client σ) (objs : List String) (d : String) (s : σ)
    (h : (migrate S3 objs d s).outcome = .ok ()) :
    (migrate S3 objs d s).trace =
      objs.map (fun obj => Call.copy ⟨some d, some obj, some obj⟩ (.ok ())) := by
  induction objs generalizing s with
  | nil => rfl
  | cons obj rest ih =>
    rcases migrate_cons S3 obj rest d s with ⟨err, _, _, _, _, ho⟩ | ⟨_, hrun⟩
    · rw [ho] at h; cases h
    · rw [hrun] at h ⊢
      simp only [Run.after, List.map_cons, List.cons.injEq, true_and]
      exact ih _ h

theorem listObjects_first_call {σ : Type} (S3 : Client σ) (fuel : Nat) (b : String) (s : σ)
    (objs : List String) (h : (listObjects S3 fuel b s).outcome = .ok objs) :
    (listObjects S3 fuel b s).trace.head? =
      some (.list ⟨some b, none⟩ (S3.ListObjectsV2 s ⟨some b, none⟩).1) := by
  rw [listObjects_eq] at h ⊢
  cases fuel with
  | zero => simp [listObjectsLoop] at h
  | succ fuel =>
    have hd : TokenPtr.nil.deref "" = none := rfl
    rcases listObjectsLoop_succ S3 b .nil fuel s "" [] 0 with
      ⟨err, hr, _, ht, _⟩ | ⟨resp, hr, _, _, ht, _⟩ | ⟨resp, hr, _, _, _, ht, _⟩ |
      ⟨resp, hr, _, _, _, ht, _⟩ | ⟨resp, hr, _, _, _, _, ht, _⟩ | ⟨resp, next, hr, _, _, _, hrun⟩
    all_goals first
      | (rw [ht]; simp only [hd] at hr ⊢; rw [hr]; rfl)
      | (rw [hrun]; simp only [hd] at hr ⊢; rw [hr]; rfl)

theorem SyncFrom_cons_state {σ : Type} (S3 : Client σ) (fuel i : Nat) (loc : Locations)
    (rest : List Locations) (s : σ) (objs : List String)
    (hlo : (listObjects S3 fuel loc.Source s).outcome = .ok objs)
    (hmo : (migrate S3 objs loc.Dest (listObjects S3 fuel loc.Source s).state).outcome = .ok ()) :
    (SyncFrom S3 fuel i (loc :: rest) s).state =
      (SyncFrom S3 fuel (i + 1) rest
        (migrate S3 objs loc.Dest (listObjects S3 fuel loc.Source s).state).state).state := by
  simp only [SyncFrom, hlo, hmo]

/-- The calls of pair `i + k`, when the pairs up to it were processed without
error: the list calls of its enumeration, made from the state the earlier pairs
left, then one successful copy call per key delivered. -/
theorem SyncFrom_pair_calls {σ : Type} (S3 : Client σ) (fuel i : Nat) (locs : List Locations)
    (s : σ) (k : Nat) (loc : Locations) (hk : locs[k]? = some loc)
    (hok : (SyncFrom S3 fuel i (locs.take (k + 1)) s).outcome = .ok ()) :
    callsOfPair (i + k) (SyncFrom S3 fuel i locs s).trace =
      (listObjects S3 fuel loc.Source (SyncFrom S3 fuel i (locs.take k) s).state).trace ++
      (keysReceived
        (listObjects S3 fuel loc.Source (SyncFrom S3 fuel i (locs.take k) s).state).trace).map
        (fun key => Call.copy ⟨some loc.Dest, some (loc.Source ++ "/" ++ key),
          some (loc.Source ++ "/" ++ key)⟩ (.ok ())) ∧
    (listObjects S3 fuel loc.Source (SyncFrom S3 fuel i (locs.take k) s).state).outcome =
      .ok ((keysReceived
        (listObjects S3 fuel loc.Source (SyncFrom S3 fuel i (locs.take k) s).state).trace).map
        (fun key => loc.Source ++ "/" ++ key)) := by
  induction locs generalizing i s k with
  | nil => simp at hk
  | cons loc0 rest ih =>
    rw [List.take_succ_cons] at hok
    rcases SyncFrom_cons S3 fuel i loc0 (rest.take k) s with
      ⟨_, _, _, ho⟩ | ⟨objs, err, _, _, _, _, _, ho⟩ | ⟨objs, hlo, hmo, hst, _, _, ho⟩
    · rcases ho with ⟨err, _, h⟩ | ⟨_, h⟩ | ⟨_, h⟩ <;> (rw [h] at hok; cases hok)
    · rw [ho] at hok; cases hok
    · rw [ho] at hok
      rcases SyncFrom_cons S3 fuel i loc0 rest s with
        ⟨_, _, _, ho'⟩ | ⟨objs', err, hlo', hmo', _⟩ | ⟨objs', hlo', _, _, ht, _⟩
      · rcases ho' with ⟨err, h, _⟩ | ⟨h, _⟩ | ⟨h, _⟩ <;> (rw [hlo] at h; cases h)
      · rw [hlo] at hlo'; injection hlo' with e; subst e
        rw [hmo] at hmo'; cases hmo'
      · rw [hlo] at hlo'; injection hlo' with e; subst e
        rw [ht]
        have hord := (SyncFrom_order S3 fuel (i + 1) rest
          (migrate S3 objs loc0.Dest (listObjects S3 fuel loc0.Source s).state).state).1
        cases k with
        | zero =>
          simp only [List.getElem?_cons_zero, Option.some.injEq] at hk
          subst hk
          have htail : callsOfPair i (SyncFrom S3 fuel (i + 1) rest
              (migrate S3 objs loc0.Dest (listObjects S3 fuel loc0.Source s).state).state).trace
              = [] :=
            callsOfPair_of_lt i _ (fun e he => by have := (hord e he).1; omega)
          have hres := listObjectsLoop_result S3 loc0.Source .nil fuel s "" [] 0 objs
            (by rw [← listObjects_eq]; exact hlo)
          rw [← listObjects_eq, List.nil_append] at hres
          have hmt := migrate_trace_ok S3 objs loc0.Dest _ hmo
          have hs0 : (SyncFrom S3 fuel i (List.take 0 (loc0 :: rest)) s).state = s := rfl
          rw [hs0]
          refine ⟨?_, by rw [hlo, ← hres]⟩
          simp only [Nat.add_zero, callsOfPair_append, callsOfPair_tag_self, htail,
            List.append_nil, hmt]
          rw [hres, List.map_map]
          rfl
        | succ k =>
          simp only [List.getElem?_cons_succ] at hk
          have e1 : i + (k + 1) = i + 1 + k := by omega
          have hne : i ≠ i + 1 + k := by omega
          have hs1 : (SyncFrom S3 fuel i (List.take (k + 1) (loc0 :: rest)) s).state =
              (SyncFrom S3 fuel (i + 1) (rest.take k)
                (migrate S3 objs loc0.Dest (listObjects S3 fuel loc0.Source s).state).state).state := by
            rw [List.take_succ_cons]
            exact SyncFrom_cons_state S3 fuel i loc0 (rest.take k) s objs hlo hmo
          rw [e1, hs1]
          simp only [callsOfPair_append, callsOfPair_tag_ne i (i + 1 + k) _ hne,
            List.nil_append]
          exact ih (i + 1) _ k hk hok

/-! ## The claims -/

/-- C1 (the code violates it): on scenario S1, a service that is a function of
the request, the chain of pages reaches its final page after two pages and the
listing the specification describes is `src/a`, `src/b`, `src/c`; `listObjects`
returns nothing, whatever the number of iterations allowed: it is still in its
loop. -/
theorem listObjects_S1_never_returns :
    chainListing s1Client "src" 2 none = some ["src/a", "src/b", "src/c"] ∧
    ∀ fuel, (listObjects s1Client fuel "src" ()).outcome = .timeout :=
  ⟨rfl, fun fuel => (s1_loop fuel "" [] 0).1⟩

/-- C2 (the code violates it): on scenario S1 the second request of
`listObjects` carries no continuation token although the preceding response was
truncated with next token `T`; and for every service, every request of
`listObjects` carries no continuation token. -/
theorem listObjects_S1_resends_first_request :
    (listObjects s1Client 2 "src" ()).trace =
      [.list ⟨some "src", none⟩ (.ok ⟨[⟨some "a"⟩, ⟨some "b"⟩], some true, some "T"⟩),
       .list ⟨some "src", none⟩ (.ok ⟨[⟨some "a"⟩, ⟨some "b"⟩], some true, some "T"⟩)] ∧
    ∀ (σ : Type) (S3 : Client σ) (fuel : Nat) (b : String) (s : σ),
      ∀ c ∈ (listObjects S3 fuel b s).trace,
        ∃ resp, c = .list { Bucket := some b, ContinuationToken := none } resp :=
  ⟨rfl, fun _ S3 fuel b s => listObjects_calls S3 fuel b s⟩

/-- C3: for every pair of the configuration such that `Sync` processed the pairs
up to and including it without error, the calls made for that pair are the list
calls of its enumeration, the first one the token-less list request on the
source bucket as answered by the service, followed by exactly one successful
`copy(dest, source/k, source/k)` for each key `k` delivered by those list calls,
in delivery order (duplicates kept); so the copy requests issued for the pair are
`copy(dest, source/k, source/k)` for each delivered key, one per key, in order,
and every such request has its key equal to its copy source. -/
theorem Sync_copies_of_pair {σ : Type} (S3 : Client σ) (fuel : Nat)
    (locations : List Locations) (s : σ) (i : Nat) (loc : Locations)
    (hloc : locations[i]? = some loc)
    (hok : (Sync S3 fuel (locations.take (i + 1)) s).outcome = .ok ()) :
    copiesIssued (callsOfPair i (Sync S3 fuel locations s).trace) =
      (keysReceived (callsOfPair i (Sync S3 fuel locations s).trace)).map
        (fun k => { Bucket := some loc.Dest, CopySource := some (loc.Source ++ "/" ++ k),
                    Key := some (loc.Source ++ "/" ++ k) }) ∧
    (∀ c ∈ copiesIssued (callsOfPair i (Sync S3 fuel locations s).trace),
      c.Key = c.CopySource) ∧
    callsOfPair i (Sync S3 fuel locations s).trace =
      (listObjects S3 fuel loc.Source (Sync S3 fuel (locations.take i) s).state).trace ++
      (keysReceived
        (listObjects S3 fuel loc.Source (Sync S3 fuel (locations.take i) s).state).trace).map
        (fun k => Call.copy ⟨some loc.Dest, some (loc.Source ++ "/" ++ k),
          some (loc.Source ++ "/" ++ k)⟩ (.ok ())) ∧
    (callsOfPair i (Sync S3 fuel locations s).trace).head? =
      some (.list ⟨some loc.Source, none⟩
        (S3.ListObjectsV2 (Sync S3 fuel (locations.take i) s).state
          ⟨some loc.Source, none⟩).1) ∧
    (listObjects S3 fuel loc.Source (Sync S3 fuel (locations.take i) s).state).outcome =
      .ok ((keysReceived
        (listObjects S3 fuel loc.Source (Sync S3 fuel (locations.take i) s).state).trace).map
        (fun k => loc.Source ++ "/" ++ k)) := by
  have h := SyncFrom_copies S3 fuel 0 locations s i loc hloc hok
  obtain ⟨h3, h4⟩ := SyncFrom_pair_calls S3 fuel 0 locations s i loc hloc hok
  rw [Nat.zero_add] at h h3
  have hS : ∀ locs, Sync S3 fuel locs s = SyncFrom S3 fuel 0 locs s := fun _ => rfl
  simp only [hS]
  refine ⟨h, ?_, h3, ?_, h4⟩
  · intro c hc
    rw [h] at hc
    obtain ⟨k, _, rfl⟩ := List.mem_map.1 hc
    rfl
  · have hfc := listObjects_first_call S3 fuel loc.Source
      (SyncFrom S3 fuel 0 (locations.take i) s).state _ h4
    rw [h3]
    cases hl : (listObjects S3 fuel loc.Source
        (SyncFrom S3 fuel 0 (locations.take i) s).state).trace with
    | nil => rw [hl] at hfc; cases hfc
    | cons c t =>
      rw [hl] at hfc
      simpa using hfc

/-- Scenario S1 delivered by a service with state: one pair, two pages; the
calls are list, list, then the copies of `src/a`, `src/b`, `src/c` into `dst`. -/
theorem Sync_copies_of_pair_witness :
    [Locations.mk "src" "dst"][0]? = some ⟨"src", "dst"⟩ ∧
    (Sync scriptClient 2 ([Locations.mk "src" "dst"].take (0 + 1)) s1Script).outcome = .ok () ∧
    (Sync scriptClient 2 [⟨"src", "dst"⟩] s1Script).trace =
      [⟨0, .list ⟨some "src", none⟩ (.ok ⟨[⟨some "a"⟩, ⟨some "b"⟩], some true, some "T"⟩)⟩,
       ⟨0, .list ⟨some "src", none⟩ (.ok ⟨[⟨some "c"⟩], some false, none⟩)⟩,
       ⟨0, .copy ⟨some "dst", some "src/a", some "src/a"⟩ (.ok ())⟩,
       ⟨0, .copy ⟨some "dst", some "src/b", some "src/b"⟩ (.ok ())⟩,
       ⟨0, .copy ⟨some "dst", some "src/c", some "src/c"⟩ (.ok ())⟩] ∧
    keysReceived (callsOfPair 0 (Sync scriptClient 2 [⟨"src", "dst"⟩] s1Script).trace) =
      ["a", "b", "c"] ∧
    copiesIssued (callsOfPair 0 (Sync scriptClient 2 [⟨"src", "dst"⟩] s1Script).trace) =
      [⟨some "dst", some "src/a", some "src/a"⟩, ⟨some "dst", some "src/b", some "src/b"⟩,
       ⟨some "dst", some "src/c", some "src/c"⟩] ∧
    (copiesIssued (callsOfPair 0 (Sync scriptClient 2 [⟨"src", "dst"⟩] s1Script).trace) =
      (keysReceived (callsOfPair 0 (Sync scriptClient 2 [⟨"src", "dst"⟩] s1Script).trace)).map
        (fun k => { Bucket := some "dst", CopySource := some ("src" ++ "/" ++ k),
                    Key := some ("src" ++ "/" ++ k) }) ∧
      (∀ c ∈ copiesIssued (callsOfPair 0 (Sync scriptClient 2 [⟨"src", "dst"⟩] s1Script).trace),
        c.Key = c.CopySource) ∧
      callsOfPair 0 (Sync scriptClient 2 [⟨"src", "dst"⟩] s1Script).trace =
        (listObjects scriptClient 2 "src"
          (Sync scriptClient 2 ([Locations.mk "src" "dst"].take 0) s1Script).state).trace ++
        (keysReceived (listObjects scriptClient 2 "src"
          (Sync scriptClient 2 ([Locations.mk "src" "dst"].take 0) s1Script).state).trace).map
          (fun k => Call.copy ⟨some "dst", some ("src" ++ "/" ++ k),
            some ("src" ++ "/" ++ k)⟩ (.ok ())) ∧
      (callsOfPair 0 (Sync scriptClient 2 [⟨"src", "dst"⟩] s1Script).trace).head? =
        some (.list ⟨some "src", none⟩
          (scriptClient.ListObjectsV2
            (Sync scriptClient 2 ([Locations.mk "src" "dst"].take 0) s1Script).state
            ⟨some "src", none⟩).1) ∧
      (listObjects scriptClient 2 "src"
          (Sync scriptClient 2 ([Locations.mk "src" "dst"].take 0) s1Script).state).outcome =
        .ok ((keysReceived (listObjects scriptClient 2 "src"
          (Sync scriptClient 2 ([Locations.mk "src" "dst"].take 0) s1Script).state).trace).map
          (fun k => "src" ++ "/" ++ k))) :=
  ⟨rfl, rfl, rfl, rfl, rfl,
    Sync_copies_of_pair scriptClient 2 [⟨"src", "dst"⟩] s1Script 0 ⟨"src", "dst"⟩ rfl rfl⟩

/-- C4: if a service call of a run of `Sync` failed, it is the last call of the
trace and `Sync` returns an error; when it is a list call, no copy was issued
for its pair; and a `listObjects` run in which a list call failed returns an
error, not a list. -/
theorem Sync_first_failure_abort {σ : Type} (S3 : Client σ) (fuel : Nat)
    (locations : List Locations) (s : σ) (pre : List Event) (e : Event) (suf : List Event)
    (htrace : (Sync S3 fuel locations s).trace = pre ++ e :: suf)
    (hfail : e.call.failed = true) :
    suf = [] ∧
    (∃ msg, (Sync S3 fuel locations s).outcome = .error msg) ∧
    (e.call.isCopy = false →
      copiesIssued (callsOfPair e.pair (Sync S3 fuel locations s).trace) = []) ∧
    (∀ (b : String) (s' : σ), ∀ c ∈ (listObjects S3 fuel b s').trace, c.failed = true →
      ∃ msg, (listObjects S3 fuel b s').outcome = .error msg) := by
  have hlist : ∀ (b : String) (s' : σ), ∀ c ∈ (listObjects S3 fuel b s').trace,
      c.failed = true → ∃ msg, (listObjects S3 fuel b s').outcome = .error msg := by
    intro b s' c hc hf
    have h := listObjectsLoop_abort S3 b .nil fuel s' "" [] 0
    rw [← listObjects_eq] at h
    rcases h with ⟨hnf, _⟩ | ⟨_, _, cause, _, _, ho⟩
    · rw [hnf c hc] at hf; cases hf
    · exact ⟨_, ho⟩
  have hS : Sync S3 fuel locations s = SyncFrom S3 fuel 0 locations s := rfl
  rw [hS] at htrace ⊢
  rcases SyncFrom_abort S3 fuel 0 locations s with
    ⟨hnf, _⟩ | ⟨init, j, input, cause, ht, hnf, ho, hnc⟩ | ⟨init, j, input, cause, ht, hnf, ho⟩
  · have := hnf e (by rw [htrace]; simp)
    rw [this] at hfail; cases hfail
  · obtain ⟨h1, h2, h3⟩ := failed_is_last init _ pre suf e (by rw [← ht, htrace]) hnf hfail
    refine ⟨h1, ⟨_, ho⟩, ?_, hlist⟩
    intro _
    apply copiesIssued_of_not_copy
    intro c hc
    obtain ⟨e', he', hp, rfl⟩ := mem_callsOfPair _ _ _ hc
    rw [ht] at he'
    rw [h3] at hp
    rcases List.mem_append.1 he' with he' | he'
    · exact hnc e' he' hp
    · rw [List.mem_singleton.1 he']; rfl
  · obtain ⟨h1, h2, h3⟩ := failed_is_last init _ pre suf e (by rw [← ht, htrace]) hnf hfail
    refine ⟨h1, ⟨_, ho⟩, ?_, hlist⟩
    intro hc
    rw [h3] at hc
    cases hc

/-- Two pairs; the list call of the second pair fails. -/
theorem Sync_first_failure_abort_witness :
    (Sync demoClient 1 [⟨"B", "Y"⟩, ⟨"locked", "X"⟩] ()).trace =
      [⟨0, .list ⟨some "B", none⟩ (.ok ⟨[⟨some "k"⟩], some false, none⟩)⟩,
       ⟨0, .copy ⟨some "Y", some "B/k", some "B/k"⟩ (.ok ())⟩] ++
      ⟨1, .list ⟨some "locked", none⟩ (.error "AccessDenied")⟩ :: [] ∧
    (Event.mk 1 (.list ⟨some "locked", none⟩ (.error "AccessDenied"))).call.failed = true ∧
    (([] : List Event) = [] ∧
      (∃ msg, (Sync demoClient 1 [⟨"B", "Y"⟩, ⟨"locked", "X"⟩] ()).outcome = .error msg) ∧
      ((Event.mk 1 (.list ⟨some "locked", none⟩ (.error "AccessDenied"))).call.isCopy = false →
        copiesIssued (callsOfPair
          (Event.mk 1 (.list ⟨some "locked", none⟩ (.error "AccessDenied"))).pair
          (Sync demoClient 1 [⟨"B", "Y"⟩, ⟨"locked", "X"⟩] ()).trace) = []) ∧
      (∀ (b : String) (s' : Unit), ∀ c ∈ (listObjects demoClient 1 b s').trace,
        c.failed = true → ∃ msg, (listObjects demoClient 1 b s').outcome = .error msg)) :=
  ⟨rfl, rfl, Sync_first_failure_abort demoClient 1 [⟨"B", "Y"⟩, ⟨"locked", "X"⟩] ()
    [⟨0, .list ⟨some "B", none⟩ (.ok ⟨[⟨some "k"⟩], some false, none⟩)⟩,
     ⟨0, .copy ⟨some "Y", some "B/k", some "B/k"⟩ (.ok ())⟩]
    ⟨1, .list ⟨some "locked", none⟩ (.error "AccessDenied")⟩ [] rfl rfl⟩

/-- C5 (the code violates it): on scenario S1 the chain of pages reaches a final
page after two pages, yet `listObjects` does not terminate: allowed any number
of iterations it makes that many list calls and is still in its loop. -/
theorem listObjects_S1_diverges :
    (chainListing s1Client "src" 2 none).isSome = true ∧
    ∀ fuel, (listObjects s1Client fuel "src" ()).trace.length = fuel ∧
      (listObjects s1Client fuel "src" ()).outcome = .timeout :=
  ⟨rfl, fun fuel => ⟨(s1_loop fuel "" [] 0).2, (s1_loop fuel "" [] 0).1⟩⟩

/-- C6: in the trace of every run of `Sync`, complete or not, and in every
initial part of it, of two events the earlier one belongs to an earlier pair, or
to the same pair without being a copy call followed by a list call; every event
is labelled with the index of a
configured pair and serves that pair, list calls its source bucket and copy
calls its destination bucket; and scenario S2 gives list(A), copy(X, A/k, A/k),
list(B), copy(Y, B/k, B/k). -/
theorem Sync_trace_order {σ : Type} (S3 : Client σ) (fuel : Nat)
    (locations : List Locations) (s : σ) :
    (Sync S3 fuel locations s).trace.Pairwise Precedes ∧
    (∀ pre suf, (Sync S3 fuel locations s).trace = pre ++ suf → pre.Pairwise Precedes) ∧
    (∀ e ∈ (Sync S3 fuel locations s).trace,
      ∃ loc, locations[e.pair]? = some loc ∧ e.call.serves loc) ∧
    (Sync demoClient 1 [⟨"A", "X"⟩, ⟨"B", "Y"⟩] ()).trace =
      [⟨0, .list ⟨some "A", none⟩ (.ok ⟨[⟨some "k"⟩], some false, none⟩)⟩,
       ⟨0, .copy ⟨some "X", some "A/k", some "A/k"⟩ (.ok ())⟩,
       ⟨1, .list ⟨some "B", none⟩ (.ok ⟨[⟨some "k"⟩], some false, none⟩)⟩,
       ⟨1, .copy ⟨some "Y", some "B/k", some "B/k"⟩ (.ok ())⟩] := by
  obtain ⟨h1, h2⟩ := SyncFrom_order S3 fuel 0 locations s
  refine ⟨h2, ?_, fun e he => (h1 e he).2, rfl⟩
  intro pre suf hs
  have h3 : (pre ++ suf).Pairwise Precedes := by rw [← hs]; exact h2
  exact (List.pairwise_append.1 h3).1

/-- The message for a failed list call differs from the message for a failed
copy call, whatever the causes. -/
theorem phase_messages_differ (c1 c2 : String) :
    "unable to list objects, unable to list objects, " ++ c1 ≠
      "unable to migrate objects, unable to copy object, " ++ c2 := by
  intro h
  have h1 := congrArg String.data h
  simp only [String.data_append] at h1
  have h2 := congrArg (fun l => l.get? 10) h1
  simp at h2

/-- C7 (as stated it fails): the error `Sync` returns does not carry the pair
index.  Against the same service, a run that fails in pair 0 and a run that
fails in pair 1 return the same error, so no function recovers the index of the
failing pair from the returned error. -/
theorem Sync_error_lacks_pair_index :
    (Sync demoClient 1 [⟨"locked", "X"⟩] ()).trace =
      [⟨0, .list ⟨some "locked", none⟩ (.error "AccessDenied")⟩] ∧
    (Sync demoClient 1 [⟨"B", "Y"⟩, ⟨"locked", "X"⟩] ()).trace =
      [⟨0, .list ⟨some "B", none⟩ (.ok ⟨[⟨some "k"⟩], some false, none⟩)⟩,
       ⟨0, .copy ⟨some "Y", some "B/k", some "B/k"⟩ (.ok ())⟩,
       ⟨1, .list ⟨some "locked", none⟩ (.error "AccessDenied")⟩] ∧
    (Sync demoClient 1 [⟨"locked", "X"⟩] ()).outcome =
      (Sync demoClient 1 [⟨"B", "Y"⟩, ⟨"locked", "X"⟩] ()).outcome ∧
    ¬ ∃ indexOf : Outcome Unit → Nat,
      ∀ (locations : List Locations) (init : List Event) (j : Nat) (c : Call),
        (Sync demoClient 1 locations ()).trace = init ++ [⟨j, c⟩] → c.failed = true →
        indexOf (Sync demoClient 1 locations ()).outcome = j := by
  refine ⟨rfl, rfl, rfl, ?_⟩
  rintro ⟨indexOf, h⟩
  have h0 := h [⟨"locked", "X"⟩] [] 0 (.list ⟨some "locked", none⟩ (.error "AccessDenied"))
    rfl rfl
  have h1 := h [⟨"B", "Y"⟩, ⟨"locked", "X"⟩]
    [⟨0, .list ⟨some "B", none⟩ (.ok ⟨[⟨some "k"⟩], some false, none⟩)⟩,
     ⟨0, .copy ⟨some "Y", some "B/k", some "B/k"⟩ (.ok ())⟩]
    1 (.list ⟨some "locked", none⟩ (.error "AccessDenied")) rfl rfl
  have e : (Sync demoClient 1 [⟨"locked", "X"⟩] ()).outcome =
      (Sync demoClient 1 [⟨"B", "Y"⟩, ⟨"locked", "X"⟩] ()).outcome := rfl
  rw [e, h1] at h0
  exact absurd h0 (by decide)

/-- C7 (amended): when `Sync` returns an error, the last call of the trace is a
failed service call and the error is a message fixed by the kind of that call
and the message of its cause: `unable to list objects, unable to list objects, `
followed by the cause for a list call, `unable to migrate objects, unable to
copy object, ` followed by the cause for a copy call; the two kinds of message
never coincide. -/
theorem Sync_error_message {σ : Type} (S3 : Client σ) (fuel : Nat)
    (locations : List Locations) (s : σ) (msg : String)
    (h : (Sync S3 fuel locations s).outcome = .error msg) :
    (∃ init j,
      (∃ input cause,
        (Sync S3 fuel locations s).trace = init ++ [⟨j, .list input (.error cause)⟩] ∧
        msg = "unable to list objects, unable to list objects, " ++ cause) ∨
      (∃ input cause,
        (Sync S3 fuel locations s).trace = init ++ [⟨j, .copy input (.error cause)⟩] ∧
        msg = "unable to migrate objects, unable to copy object, " ++ cause)) ∧
    ∀ c1 c2 : String, "unable to list objects, unable to list objects, " ++ c1 ≠
      "unable to migrate objects, unable to copy object, " ++ c2 := by
  refine ⟨?_, phase_messages_differ⟩
  have hS : Sync S3 fuel locations s = SyncFrom S3 fuel 0 locations s := rfl
  rw [hS] at h ⊢
  rcases SyncFrom_abort S3 fuel 0 locations s with
    ⟨_, hne⟩ | ⟨init, j, input, cause, ht, _, ho, _⟩ | ⟨init, j, input, cause, ht, _, ho⟩
  · exact absurd h (hne msg)
  · rw [ho] at h
    injection h with h
    refine ⟨init, j, Or.inl ⟨input, cause, ht, ?_⟩⟩
    rw [← h, ← String.append_assoc]
    rfl
  · rw [ho] at h
    injection h with h
    refine ⟨init, j, Or.inr ⟨input, cause, ht, ?_⟩⟩
    rw [← h, ← String.append_assoc]
    rfl

/-- A copy into a read-only destination fails. -/
theorem Sync_error_message_witness :
    (Sync demoClient 1 [⟨"A", "readonly"⟩] ()).outcome =
      .error "unable to migrate objects, unable to copy object, AccessDenied" ∧
    ((∃ init j,
      (∃ input cause,
        (Sync demoClient 1 [⟨"A", "readonly"⟩] ()).trace =
          init ++ [⟨j, .list input (.error cause)⟩] ∧
        "unable to migrate objects, unable to copy object, AccessDenied" =
          "unable to list objects, unable to list objects, " ++ cause) ∨
      (∃ input cause,
        (Sync demoClient 1 [⟨"A", "readonly"⟩] ()).trace =
          init ++ [⟨j, .copy input (.error cause)⟩] ∧
        "unable to migrate objects, unable to copy object, AccessDenied" =
          "unable to migrate objects, unable to copy object, " ++ cause)) ∧
    ∀ c1 c2 : String, "unable to list objects, unable to list objects, " ++ c1 ≠
      "unable to migrate objects, unable to copy object, " ++ c2) :=
  ⟨rfl, Sync_error_message demoClient 1 [⟨"A", "readonly"⟩] () _ rfl⟩

/-- C8: when the first list response for a pair's source bucket has no contents
and truncation flag false, `listObjects` makes that one list call, returns the
empty sequence without error and prints nothing; the loop of `Sync` makes that
one call for the pair, issues no copy for it, prints nothing for it, and goes on
with the next pair from the state the service was left in; with no next pair it
returns nil. -/
theorem Sync_empty_source {σ : Type} (S3 : Client σ) (fuel i : Nat) (loc : Locations)
    (rest : List Locations) (s s1 : σ) (resp : ListObjectsV2Output)
    (hfuel : 0 < fuel)
    (hresp : S3.ListObjectsV2 s { Bucket := some loc.Source, ContinuationToken := none } =
      (.ok resp, s1))
    (hempty : resp.Contents = []) (hfinal : resp.IsTruncated = some false) :
    (listObjects S3 fuel loc.Source s).trace = [.list ⟨some loc.Source, none⟩ (.ok resp)] ∧
    (listObjects S3 fuel loc.Source s).outcome = .ok [] ∧
    (listObjects S3 fuel loc.Source s).stdout = [] ∧
    (SyncFrom S3 fuel i (loc :: rest) s).trace =
      ⟨i, .list ⟨some loc.Source, none⟩ (.ok resp)⟩ :: (SyncFrom S3 fuel (i + 1) rest s1).trace ∧
    copiesIssued (callsOfPair i (SyncFrom S3 fuel i (loc :: rest) s).trace) = [] ∧
    (SyncFrom S3 fuel i (loc :: rest) s).stdout = (SyncFrom S3 fuel (i + 1) rest s1).stdout ∧
    (SyncFrom S3 fuel i (loc :: rest) s).outcome = (SyncFrom S3 fuel (i + 1) rest s1).outcome ∧
    (SyncFrom S3 fuel i [loc] s).outcome = .ok () := by
  obtain ⟨fuel, rfl⟩ : ∃ f, fuel = f + 1 := ⟨fuel - 1, by omega⟩
  have hl : listObjects S3 (fuel + 1) loc.Source s =
      { state := s1, trace := [.list ⟨some loc.Source, none⟩ (.ok resp)], stdout := [],
        outcome := .ok [] } := by
    rw [listObjects_eq]
    simp only [listObjectsLoop, TokenPtr.deref, hresp, hempty, hfinal, printLoop, appendLoop]
  have hS : ∀ rest', SyncFrom S3 (fuel + 1) i (loc :: rest') s =
      { state := (SyncFrom S3 (fuel + 1) (i + 1) rest' s1).state,
        trace := ⟨i, .list ⟨some loc.Source, none⟩ (.ok resp)⟩ ::
          (SyncFrom S3 (fuel + 1) (i + 1) rest' s1).trace,
        stdout := (SyncFrom S3 (fuel + 1) (i + 1) rest' s1).stdout,
        outcome := (SyncFrom S3 (fuel + 1) (i + 1) rest' s1).outcome } := by
    intro rest'
    simp only [SyncFrom, hl, migrate, tag, List.map_cons, List.map_nil, List.append_nil,
      List.singleton_append, List.nil_append]
  refine ⟨by rw [hl], by rw [hl], by rw [hl], by rw [hS], ?_, by rw [hS], by rw [hS], ?_⟩
  · rw [hS]
    apply copiesIssued_of_not_copy
    intro c hc
    obtain ⟨e, he, hp, rfl⟩ := mem_callsOfPair _ _ _ hc
    rcases List.mem_cons.1 he with rfl | he
    · rfl
    · have := ((SyncFrom_order S3 (fuel + 1) (i + 1) rest s1).1 e he).1
      omega
  · rw [hS]; rfl

/-- Scenario S3: one pair whose source is empty. -/
theorem Sync_empty_source_witness :
    0 < 1 ∧
    demoClient.ListObjectsV2 () { Bucket := some "empty", ContinuationToken := none } =
      (.ok ⟨[], some false, none⟩, ()) ∧
    (listObjects demoClient 1 "empty" ()).trace =
      [.list ⟨some "empty", none⟩ (.ok ⟨[], some false, none⟩)] ∧
    (listObjects demoClient 1 "empty" ()).outcome = .ok [] ∧
    (listObjects demoClient 1 "empty" ()).stdout = [] ∧
    (SyncFrom demoClient 1 0 [⟨"empty", "d"⟩] ()).trace =
      ⟨0, .list ⟨some "empty", none⟩ (.ok ⟨[], some false, none⟩)⟩ ::
        (SyncFrom demoClient 1 (0 + 1) [] ()).trace ∧
    copiesIssued (callsOfPair 0 (SyncFrom demoClient 1 0 [⟨"empty", "d"⟩] ()).trace) = [] ∧
    (SyncFrom demoClient 1 0 [⟨"empty", "d"⟩] ()).stdout =
      (SyncFrom demoClient 1 (0 + 1) [] ()).stdout ∧
    (SyncFrom demoClient 1 0 [⟨"empty", "d"⟩] ()).outcome =
      (SyncFrom demoClient 1 (0 + 1) [] ()).outcome ∧
    (SyncFrom demoClient 1 0 [⟨"empty", "d"⟩] ()).outcome = .ok () :=
  ⟨by decide, rfl,
    Sync_empty_source demoClient 1 0 ⟨"empty", "d"⟩ [] () () ⟨[], some false, none⟩
      (by decide) rfl rfl rfl⟩

/-- C9: during one call of `listObjects`, when every key received is present,
one progress line is printed per key received, and the `n`-th line printed,
counted from 0 across all pages, is `Object n: key` for the `n`-th key received,
the bare key without the bucket name. -/
theorem listObjects_progress_lines {σ : Type} (S3 : Client σ) (fuel : Nat) (b : String)
    (s : σ) (h : traceKeysPresent (listObjects S3 fuel b s).trace) :
    (listObjects S3 fuel b s).stdout.length =
      (keysReceived (listObjects S3 fuel b s).trace).length ∧
    ∀ (n : Nat) (key : String), (keysReceived (listObjects S3 fuel b s).trace)[n]? = some key →
      (listObjects S3 fuel b s).stdout[n]? =
        some ("Object " ++ toString n ++ ": " ++ key ++ "\n") := by
  rw [listObjects_eq] at h ⊢
  rw [listObjectsLoop_stdout S3 b .nil fuel s "" [] 0 h]
  refine ⟨progressLines_length _ _, ?_⟩
  intro n key hk
  have := progressLines_getElem? 0 _ n key hk
  rw [Nat.zero_add] at this
  exact this

theorem s1Script_trace :
    (listObjects scriptClient 2 "src" s1Script).trace =
      [.list ⟨some "src", none⟩ (.ok ⟨[⟨some "a"⟩, ⟨some "b"⟩], some true, some "T"⟩),
       .list ⟨some "src", none⟩ (.ok ⟨[⟨some "c"⟩], some false, none⟩)] := rfl

theorem s1Script_keysPresent :
    traceKeysPresent (listObjects scriptClient 2 "src" s1Script).trace := by
  intro input resp hm
  rw [s1Script_trace] at hm
  simp only [List.mem_cons, Call.list.injEq, Except.ok.injEq, List.mem_singleton,
    List.not_mem_nil, or_false] at hm
  rcases hm with ⟨_, rfl⟩ | ⟨_, rfl⟩
  · intro obj ho
    simp only [List.mem_cons, List.mem_singleton, List.not_mem_nil, or_false] at ho
    rcases ho with rfl | rfl <;> simp
  · intro obj ho
    simp only [List.mem_cons, List.mem_singleton, List.not_mem_nil, or_false] at ho
    rcases ho with rfl
    simp

/-- Scenario S1 delivered by a service with state: keys `a`, `b` on page 1 and
`c` on page 2. -/
theorem listObjects_progress_lines_witness :
    traceKeysPresent (listObjects scriptClient 2 "src" s1Script).trace ∧
    (listObjects scriptClient 2 "src" s1Script).stdout =
      ["Object 0: a\n", "Object 1: b\n", "Object 2: c\n"] ∧
    ((listObjects scriptClient 2 "src" s1Script).stdout.length =
      (keysReceived (listObjects scriptClient 2 "src" s1Script).trace).length ∧
    ∀ (n : Nat) (key : String),
      (keysReceived (listObjects scriptClient 2 "src" s1Script).trace)[n]? = some key →
      (listObjects scriptClient 2 "src" s1Script).stdout[n]? =
        some ("Object " ++ toString n ++ ": " ++ key ++ "\n")) :=
  ⟨s1Script_keysPresent, rfl,
    listObjects_progress_lines scriptClient 2 "src" s1Script s1Script_keysPresent⟩

/-- C10: when every list response received has its truncation flag present, the
key of every entry present, and a next token present whenever it is truncated,
`listObjects` dereferences no nil pointer; a final page needs no token. -/
theorem listObjects_no_nil_dereference {σ : Type} (S3 : Client σ) (fuel : Nat) (b : String)
    (s : σ)
    (h : ∀ input resp, Call.list input (.ok resp) ∈ (listObjects S3 fuel b s).trace →
      WellFormed resp) :
    (listObjects S3 fuel b s).outcome ≠ .panic := by
  rw [listObjects_eq] at h ⊢
  exact listObjectsLoop_no_panic S3 b .nil fuel s "" [] 0 h

theorem s1Script_wellFormed :
    ∀ input resp, Call.list input (.ok resp) ∈
      (listObjects scriptClient 2 "src" s1Script).trace → WellFormed resp := by
  intro input resp hm
  refine ⟨?_, s1Script_keysPresent input resp hm, ?_⟩
  all_goals
    rw [s1Script_trace] at hm
    simp only [List.mem_cons, Call.list.injEq, Except.ok.injEq, List.mem_singleton,
      List.not_mem_nil, or_false] at hm
    rcases hm with ⟨_, rfl⟩ | ⟨_, rfl⟩ <;> simp

/-- Two pages, the final one without a next token. -/
theorem listObjects_no_nil_dereference_witness :
    (∀ input resp, Call.list input (.ok resp) ∈
      (listObjects scriptClient 2 "src" s1Script).trace → WellFormed resp) ∧
    (listObjects scriptClient 2 "src" s1Script).outcome = .ok ["src/a", "src/b", "src/c"] ∧
    (listObjects scriptClient 2 "src" s1Script).outcome ≠ .panic :=
  ⟨s1Script_wellFormed, rfl,
    listObjects_no_nil_dereference scriptClient 2 "src" s1Script s1Script_wellFormed⟩

end S3Transfer
